import Mathlib

/-!
Verification of the go-pathlib repository (Windows path library).

Strings are modelled as `List Char` (Go strings; the repository's data is
ASCII, so Go's byte-level operations and rune decoding coincide with
character-level operations).  The library delegates lexical path work to
Go's standard `path/filepath` package compiled for Windows; those standard
functions (`Clean`, `Join`, `Match`, `IsAbs`, `ToSlash`, `FromSlash` and
the `volumeNameLen` machinery with its `lazybuf`) are embedded below
following the Go 1.20+ implementation.  Unicode-aware case folding of
`strings.EqualFold` / `strings.ToLower` is modelled by ASCII folding,
which agrees with Go on every comparison performed by this library
(reserved device names and the concrete inputs are ASCII).
-/

namespace GoPathlib

abbrev Str := List Char

def str (s : String) : Str := s.data

/-! ## Basic byte/char helpers mirroring Go -/

/-- Go `isSlash` (path_windows.go): both separators. -/
def isSlash (c : Char) : Bool := c = '\\' || c = '/'

/-- ASCII upper-casing, Go's internal `toUpper` used by `pathHasPrefixFold`. -/
def toUpperA (c : Char) : Char :=
  if 'a' ≤ c ∧ c ≤ 'z' then Char.ofNat (c.toNat - 32) else c

/-- ASCII lower-casing (model of `strings.ToLower` on the library's data). -/
def toLowerA (c : Char) : Char :=
  if 'A' ≤ c ∧ c ≤ 'Z' then Char.ofNat (c.toNat + 32) else c

def lowerStr (s : Str) : Str := s.map toLowerA

/-- Model of `strings.EqualFold` (ASCII folding; see header note). -/
def equalFold (a b : Str) : Bool := lowerStr a = lowerStr b

/-- `strings.HasPrefix`. -/
def startsWith : Str → Str → Bool
  | _, [] => true
  | [], _ :: _ => false
  | c :: cs, p :: ps => c = p && startsWith cs ps

/-- `strings.HasSuffix`. -/
def endsWith (s suf : Str) : Bool := startsWith s.reverse suf.reverse

/-- `strings.TrimSuffix` (removes one occurrence of the suffix if present). -/
def trimSuffix (s suf : Str) : Str :=
  if endsWith s suf then s.take (s.length - suf.length) else s

/-- `strings.TrimPrefix` (removes one occurrence of the prefix if present). -/
def trimPre (s p : Str) : Str :=
  if startsWith s p then s.drop p.length else s

/-- `strings.Split` with a one-character separator. -/
def splitOnChar (sep : Char) : Str → List Str
  | [] => [[]]
  | c :: cs =>
    if c = sep then [] :: splitOnChar sep cs
    else
      match splitOnChar sep cs with
      | [] => [[c]]
      | t :: ts => (c :: t) :: ts

/-- `strings.SplitN` with n = 2 and a one-character separator. -/
def splitN2 (sep : Char) (s : Str) : List Str :=
  match s.findIdx? (fun c => c = sep) with
  | none => [s]
  | some i => [s.take i, s.drop (i + 1)]

/-- `strings.Count` of a one-character substring. -/
def countChar (c : Char) (s : Str) : Nat := s.countP (fun d => d = c)

/-- `strings.Contains` with a one-character substring. -/
def containsChar (c : Char) (s : Str) : Bool := s.any (fun d => d = c)

/-- `strings.ReplaceAll` with one-character pattern and replacement. -/
def replaceAllChar (pat rep : Char) (s : Str) : Str :=
  s.map (fun c => if c = pat then rep else c)

def interc (sep : Str) : List Str → Str
  | [] => []
  | [x] => x
  | x :: xs => x ++ sep ++ interc sep xs

/-! ## Go `path/filepath` (Windows), Go 1.20+: volume name recognition -/

/-- Go `pathHasPrefixFold`: case-insensitive, slash-insensitive prefix test;
when `s` is longer than the pattern, the next byte must be a separator. -/
def pathHasPrefixFold (s pre : Str) : Bool :=
  s.length ≥ pre.length &&
  (List.zip (s.take pre.length) pre).all
    (fun pc => if isSlash pc.2 then isSlash pc.1 else toUpperA pc.1 = toUpperA pc.2) &&
  (s.length = pre.length || isSlash (s.getD pre.length ' '))

/-- Go `cutPath`: slice `path` around the first separator. -/
def cutPath (path : Str) : Str × Str × Bool :=
  match path.findIdx? isSlash with
  | none => (path, [], false)
  | some i => (path.take i, path.drop (i + 1), true)

/-- Go `uncLen`: length of a UNC volume — scan from `pfxLen` to the second
separator (or the whole string). -/
def uncLen (path : Str) (pfxLen : Nat) : Nat :=
  go (path.drop pfxLen) pfxLen 0
where
  go : Str → Nat → Nat → Nat
    | [], _, _ => path.length
    | c :: cs, i, count =>
      if isSlash c then
        if count + 1 = 2 then i else go cs (i + 1) (count + 1)
      else go cs (i + 1) count

/-- Go `volumeNameLen` (path_windows.go, Go 1.20+). -/
def volumeNameLen (path : Str) : Nat :=
  if path.length ≥ 2 && path.getD 1 ' ' = ':' then
    -- Path starts with a drive letter.
    2
  else if path.length < 2 || !isSlash (path.getD 0 ' ') then
    -- Path does not have a volume component.
    0
  else if pathHasPrefixFold path (str "\\\\.\\UNC") then
    -- Device UNC form: \\.\UNC\server\share.
    uncLen path 8
  else if pathHasPrefixFold path (str "\\\\.") || pathHasPrefixFold path (str "\\\\?")
      || pathHasPrefixFold path (str "\\??") then
    -- Local Device path (\\.\) or Root Local Device path (\\?\ or \??\):
    -- the next component after the prefix is part of the volume name.
    if path.length = 3 then 3
    else
      match cutPath (path.drop 4) with
      | (_, rest, ok) => if !ok then path.length else path.length - rest.length - 1
  else if path.length ≥ 2 && isSlash (path.getD 1 ' ') then
    -- Plain UNC path \\server\share.
    uncLen path 2
  else 0

/-- Go `FromSlash` on Windows. -/
def fromSlash (s : Str) : Str := replaceAllChar '/' '\\' s

/-- Go `ToSlash` on Windows. -/
def toSlash (s : Str) : Str := replaceAllChar '\\' '/' s

/-! ## Go `filepath.Clean` (Windows): the `lazybuf` machine -/

/-- Go `lazybuf`, relative to an ambient `path` (the input minus its volume).
`buf = none` means the logical content is still `path.take w`. -/
structure LB where
  w : Nat
  buf : Option Str
deriving Repr, DecidableEq

def lbInit : LB := ⟨0, none⟩

def lbContent (path : Str) (b : LB) : Str :=
  match b.buf with
  | none => path.take b.w
  | some l => l

/-- `lazybuf.append`. -/
def lbAppend (path : Str) (b : LB) (c : Char) : LB :=
  match b.buf with
  | some l => ⟨b.w + 1, some (l ++ [c])⟩
  | none =>
    if path.getD b.w ' ' = c ∧ b.w < path.length then ⟨b.w + 1, none⟩
    else ⟨b.w + 1, some (path.take b.w ++ [c])⟩

/-- `lazybuf.index` (logical content at an index below `w`). -/
def lbIndex (path : Str) (b : LB) (i : Nat) : Char :=
  (lbContent path b).getD i ' '

/-- `out.w--` (drops the last logical character). -/
def lbPop (path : Str) (b : LB) : LB :=
  match b.buf with
  | none => ⟨b.w - 1, none⟩
  | some l => ⟨b.w - 1, some l.dropLast⟩

/-- `lazybuf.prepend`. -/
def lbPrepend (path : Str) (b : LB) (pre : Str) : LB :=
  ⟨b.w + pre.length, some (pre ++ lbContent path b)⟩

/-- Inner loop of the `..` backtracking (`for out.w > dotdot && ...`).
The fuel is the current `w`, which strictly decreases on every iteration,
so `fuel = b.w` never runs out. -/
def btGo (path : Str) : Nat → LB → Char → Nat → LB
  | 0, b, _, _ => b
  | fuel + 1, b, last, dotdot =>
    if b.w > dotdot ∧ ¬ isSlash last then
      btGo path fuel (lbPop path b) (lbIndex path b (b.w - 1)) dotdot
    else b

/-- The `..` backtracking of `Clean`: `out.w--` once, then keep popping while
`out.w > dotdot` and the character just beyond `out.w` is not a separator. -/
def lbBacktrack (path : Str) (b : LB) (dotdot : Nat) : LB :=
  btGo path b.w (lbPop path b) (lbIndex path b (b.w - 1)) dotdot

/-- Inner loop of `Clean`'s default case: copy one path element. -/
def copyElem (path : Str) : Str → LB → LB × Str
  | [], b => (b, [])
  | c :: rs, b =>
    if isSlash c then (b, c :: rs)
    else copyElem path rs (lbAppend path b c)

theorem copyElem_len (path : Str) : ∀ (l : Str) (b : LB),
    (copyElem path l b).2.length ≤ l.length := by
  intro l
  induction l with
  | nil => intro b; simp [copyElem]
  | cons c rs ih =>
    intro b
    simp only [copyElem]
    split
    · simp
    · exact Nat.le_trans (ih _) (Nat.le_succ _)

/-- Does the current position start a `.` element (next is separator or end)? -/
def sepOrEnd : Str → Bool
  | [] => true
  | c :: _ => isSlash c

/-- The main loop of Go `filepath.Clean` (the `for r < n` loop).  The fuel
is an upper bound on the number of remaining characters; every iteration
consumes at least one character, so `fuel = rest.length` never runs out
(`cleanLoopF_fuel` below makes this precise). -/
def cleanLoopF (path : Str) (rooted : Bool) : Nat → Str → LB → Nat → LB
  | _, [], b, _ => b
  | 0, _ :: _, b, _ => b
  | fuel + 1, c :: rs, b, dotdot =>
    if isSlash c then
      -- empty path element
      cleanLoopF path rooted fuel rs b dotdot
    else if c = '.' ∧ sepOrEnd rs then
      -- . element
      cleanLoopF path rooted fuel rs b dotdot
    else if c = '.' ∧ rs.headD ' ' = '.' ∧ sepOrEnd rs.tail then
      -- .. element: remove to last separator
      if b.w > dotdot then
        cleanLoopF path rooted fuel rs.tail (lbBacktrack path b dotdot) dotdot
      else if !rooted then
        let b := if b.w > 0 then lbAppend path b '\\' else b
        let b := lbAppend path (lbAppend path b '.') '.'
        cleanLoopF path rooted fuel rs.tail b b.w
      else
        cleanLoopF path rooted fuel rs.tail b dotdot
    else
      -- real path element: add slash if needed, then copy the element
      let b := if (rooted ∧ b.w ≠ 1) ∨ (¬rooted ∧ b.w ≠ 0) then lbAppend path b '\\' else b
      match copyElem path (c :: rs) b with
      | (b', rest') => cleanLoopF path rooted fuel rest' b' dotdot

def cleanLoop (path : Str) (rooted : Bool) (rest : Str) (b : LB) (dotdot : Nat) : LB :=
  cleanLoopF path rooted rest.length rest b dotdot

/-- Go 1.20+ `postClean`: only when there is no volume and the buffer was
materialized; protects relative paths that would become rooted/drive paths. -/
def postClean (volLen : Nat) (path : Str) (b : LB) : LB :=
  if volLen ≠ 0 ∨ b.buf = none then b
  else
    let content := lbContent path b
    let firstElem := content.takeWhile (fun c => ¬ isSlash c)
    if containsChar ':' firstElem then
      lbPrepend path b (str ".\\")
    else if content.length ≥ 3 ∧ isSlash (content.getD 0 ' ') ∧
        content.getD 1 ' ' = '?' ∧ content.getD 2 ' ' = '?' then
      lbPrepend path b (str "\\.")
    else b

/-- Go `filepath.Clean` for Windows (Go 1.20+ with `postClean`). -/
def goClean (s : Str) : Str :=
  let vl := volumeNameLen s
  let path := s.drop vl
  if path = [] then
    if vl > 1 ∧ isSlash (s.getD 0 ' ') ∧ isSlash (s.getD 1 ' ') then
      -- should be UNC
      fromSlash s
    else s ++ ['.']
  else
    let rooted := isSlash (path.getD 0 ' ')
    let (b0, rest0, dd0) :=
      if rooted then (lbAppend path lbInit '\\', path.drop 1, 1)
      else (lbInit, path, 0)
    let b := cleanLoop path rooted rest0 b0 dd0
    let b := if b.w = 0 then lbAppend path b '.' else b
    let b := postClean vl path b
    fromSlash (s.take vl ++ lbContent path b)

/-! ## Go `filepath.Join` (Windows, Go 1.20+) -/

/-- One step of the `join` builder: state is (content, lastChar). -/
def joinStep (acc : Str × Char) (e : Str) : Str × Char :=
  let (content, lastChar) := acc
  if content = [] then
    -- add the first non-empty path element unchanged
    if e = [] then (content, lastChar) else (content ++ e, e.getLastD ' ')
  else if isSlash lastChar then
    -- strip leading slashes from the next element (avoid accidental UNC)
    let e := e.dropWhile isSlash
    -- if the path is \ and the next element starts with ??, add .\
    if content = ['\\'] ∧ (e = str "??" ∨ (e.length ≥ 3 ∧ e.take 2 = str "??" ∧ isSlash (e.getD 2 ' '))) then
      let content := content ++ str ".\\"
      if e = [] then (content, '\\') else (content ++ e, e.getLastD ' ')
    else
      if e = [] then (content, lastChar) else (content ++ e, e.getLastD ' ')
  else if lastChar = ':' then
    -- keep the path drive-relative; don't add a separator
    if e = [] then (content, lastChar) else (content ++ e, e.getLastD ' ')
  else
    let content := content ++ ['\\']
    if e = [] then (content, '\\') else (content ++ e, e.getLastD ' ')

/-- Go `filepath.Join` on Windows (Go 1.20+ `join`). -/
def goJoinList (elems : List Str) : Str :=
  let (content, _) := elems.foldl joinStep ([], ' ')
  if content = [] then [] else goClean content

def goJoin2 (a b : Str) : Str := goJoinList [a, b]

/-- Go `filepath.IsAbs` on Windows. -/
def goIsAbs (path : Str) : Bool :=
  let l := volumeNameLen path
  if l = 0 then false
  else if isSlash (path.getD 0 ' ') ∧ isSlash (path.getD 1 ' ') then true
  else
    let rest := path.drop l
    if rest = [] then false else isSlash (rest.getD 0 ' ')

/-! ## Go `filepath.Match` (Windows: `\` is not an escape character) -/

/-- The element scan of `scanChunk` (tracks whether we are inside `[...]`). -/
def chunkScan : Str → Bool → Str × Str
  | [], _ => ([], [])
  | c :: cs, inrange =>
    if c = '*' ∧ ¬inrange then ([], c :: cs)
    else
      let inr := if c = '[' then true else if c = ']' then false else inrange
      (c :: (chunkScan cs inr).1, (chunkScan cs inr).2)

theorem chunkScan_rest_le : ∀ (l : Str) (inr : Bool), (chunkScan l inr).2.length ≤ l.length := by
  intro l
  induction l with
  | nil => intro inr; simp [chunkScan]
  | cons c cs ih =>
    intro inr
    simp only [chunkScan]
    split
    · simp
    · simp only [List.length_cons]
      exact Nat.le_trans (ih _) (Nat.le_succ _)

theorem dropWhile_length_le (p : Char → Bool) : ∀ l : Str, (l.dropWhile p).length ≤ l.length := by
  intro l
  induction l with
  | nil => simp
  | cons c cs ih =>
    by_cases hc : p c
    · simp only [List.dropWhile, hc]
      exact Nat.le_trans ih (Nat.le_succ _)
    · have hc' : p c = false := by simpa using hc
      simp only [List.dropWhile, hc']
      exact Nat.le_refl _

theorem dropWhile_head_not (p : Char → Bool) : ∀ (l : Str) (c : Char) (cs : Str),
    l.dropWhile p = c :: cs → p c = false := by
  intro l
  induction l with
  | nil => intro c cs h; simp at h
  | cons a as ih =>
    intro c cs h
    by_cases ha : p a
    · simp only [List.dropWhile, ha] at h
      exact ih c cs h
    · have ha' : p a = false := by simpa using ha
      simp only [List.dropWhile, ha'] at h
      rw [List.cons.injEq] at h
      rw [← h.1]
      exact ha'

/-- Go `scanChunk`: strip leading `*`s, then scan one chunk. -/
def scanChunk (pattern : Str) : Bool × Str × Str :=
  let p := pattern.dropWhile (fun c => c = '*')
  let star := p.length ≠ pattern.length
  ((star : Bool), (chunkScan p false).1, (chunkScan p false).2)

theorem scanChunk_rest_lt (p : Str) (hp : p ≠ []) : (scanChunk p).2.2.length < p.length := by
  rcases hdw : p.dropWhile (fun c => c = '*') with _ | ⟨c, cs⟩
  · have hplen : 1 ≤ p.length := by
      rcases p with _ | _
      · exact absurd rfl hp
      · simp
    have : (scanChunk p).2.2 = [] := by simp [scanChunk, hdw, chunkScan]
    rw [this]
    simpa using hplen
  · have hc0 : (fun c => decide (c = '*')) c = false := dropWhile_head_not _ p c cs hdw
    have hc : ¬ c = '*' := by simpa using hc0
    have hlen : (c :: cs).length ≤ p.length := by
      rw [← hdw]
      exact dropWhile_length_le _ _
    have hr : (scanChunk p).2.2 =
        (chunkScan cs (if c = '[' then true else if c = ']' then false else false)).2 := by
      simp only [scanChunk, hdw, chunkScan]
      rw [if_neg (by simp [hc])]
    have hle := chunkScan_rest_le cs (if c = '[' then true else if c = ']' then false else false)
    rw [hr]
    simp only [List.length_cons] at hlen
    omega

/-- Go `getEsc` (Windows: no backslash escapes): one endpoint of a range. -/
def getEsc (chunk : Str) : Option (Char × Str) :=
  match chunk with
  | [] => none
  | c :: cs =>
    if c = '-' ∨ c = ']' then none
    else if cs = [] then none   -- nothing may follow the endpoint
    else some (c, cs)

theorem getEsc_lt {chunk : Str} {r : Char} {rest : Str} (h : getEsc chunk = some (r, rest)) :
    rest.length < chunk.length := by
  rcases chunk with _ | ⟨c, cs⟩ <;> simp [getEsc] at h
  rcases h with ⟨-, -, -, h2⟩
  subst h2
  simp

/-- The range-parsing loop inside `matchChunk`'s `[` case.  Returns `none`
on a malformed pattern, otherwise whether the character matched some range
together with the rest of the chunk.  Every iteration consumes at least one
character of the chunk, so `fuel = chunk.length` never runs out. -/
def rangeLoopF (r : Char) : Nat → Str → Bool → Nat → Option (Bool × Str)
  | 0, _, _, _ => none
  | fuel + 1, chunk, mtch, nrange =>
    if chunk.headD ' ' = ']' ∧ chunk ≠ [] ∧ nrange > 0 then some (mtch, chunk.tail)
    else
      match getEsc chunk with
      | none => none
      | some (lo, chunk1) =>
        match (if chunk1.headD ' ' = '-' then getEsc chunk1.tail else some (lo, chunk1)) with
        | none => none
        | some (hi, chunk2) =>
          rangeLoopF r fuel chunk2 (mtch || (lo ≤ r ∧ r ≤ hi)) (nrange + 1)

def rangeLoop (r : Char) (chunk : Str) (mtch : Bool) (nrange : Nat) : Option (Bool × Str) :=
  rangeLoopF r chunk.length chunk mtch nrange

/-- Result of `matchChunk`: matched with a remainder, failed, or bad pattern. -/
inductive ChunkRes where
  | ok (rest : Str)
  | fail
  | bad
deriving Repr, DecidableEq

/-- Core loop of Go `matchChunk` (the `failed` flag records a mismatch while
the rest of the chunk is still validated).  Every iteration consumes at
least one chunk character, so `fuel = chunk.length` never runs out. -/
def mcGo : Nat → Bool → Str → Str → ChunkRes
  | _, failed0, [], s => if failed0 then .fail else .ok s
  | 0, _, _ :: _, _ => .bad
  | fuel + 1, failed0, c :: chunk, s =>
    let failed := failed0 || s.isEmpty
    if c = '[' then
      -- character class
      let r := if ¬failed then s.headD (Char.ofNat 0) else Char.ofNat 0
      let s := if ¬failed then s.tail else s
      let negated := chunk.headD ' ' = '^'
      match rangeLoop r (if chunk.headD ' ' = '^' then chunk.tail else chunk) false 0 with
      | none => .bad
      | some (mtch, chunk2) =>
        let failed := if mtch = negated then true else failed
        mcGo fuel failed chunk2 s
    else if c = '?' then
      let failed' := if ¬failed ∧ s.headD ' ' = '\\' then true else failed
      let s := if ¬failed then s.tail else s
      mcGo fuel failed' chunk s
    else
      -- ordinary byte ('\' is not an escape on Windows)
      let failed' := if ¬failed ∧ s.headD ' ' ≠ c then true else failed
      let s := if ¬failed then s.tail else s
      mcGo fuel failed' chunk s

/-- Go `matchChunk`. -/
def matchChunkF (chunk s : Str) : ChunkRes := mcGo chunk.length false chunk s

theorem chunkScan_append : ∀ (l : Str) (inr : Bool),
    (chunkScan l inr).1 ++ (chunkScan l inr).2 = l := by
  intro l
  induction l with
  | nil => intro inr; simp [chunkScan]
  | cons c cs ih =>
    intro inr
    simp only [chunkScan]
    split
    · simp
    · simp only [List.cons_append, List.cons.injEq, true_and]
      exact ih _

/-- The pattern-validity loop at the end of Go `Match` (returns `true` when
a remaining chunk is a bad pattern).  Every iteration strictly shrinks the
pattern, so `fuel = pattern.length` never runs out. -/
def valLoopF : Nat → Str → Bool
  | _, [] => false
  | 0, _ :: _ => false
  | fuel + 1, pattern =>
    match scanChunk pattern with
    | (_, chunk, rest) =>
      match matchChunkF chunk [] with
      | .bad => true
      | _ => valLoopF fuel rest

def valLoop (pattern : Str) : Bool := valLoopF pattern.length pattern

/-- Outcome of the star-retry loop of Go `Match`: either a final result or
the instruction to continue the main loop with the remainder `t`. -/
inductive StarRes where
  | done (r : Bool × Bool)
  | cont (t : Str)

/-- The star-retry loop of Go `Match`: skip one byte of the name at a time
(never across a separator) and retry the chunk. -/
def gmStar (chunk rest : Str) : Str → StarRes
  | [] => .done (false, valLoop rest)
  | c :: cs =>
    if c = '\\' then .done (false, valLoop rest)
    else
      match matchChunkF chunk cs with
      | .ok t =>
        if rest = [] ∧ ¬t.isEmpty then gmStar chunk rest cs
        else .cont t
      | .bad => .done (false, true)
      | .fail => gmStar chunk rest cs

/-- Main loop of Go `filepath.Match` (Windows); returns (matched, errored).
Every iteration strictly shrinks the pattern (`scanChunk` consumes at least
one character), so `fuel = pattern.length` never runs out. -/
def gmLoop : Nat → Str → Str → Bool × Bool
  | _, [], name => (name.isEmpty, false)
  | 0, _ :: _, _ => (false, false)
  | fuel + 1, pattern, name =>
    match scanChunk pattern with
    | (star, chunk, rest) =>
      if star ∧ chunk = [] then
        -- trailing * matches the rest of the name unless it has a separator
        (¬ containsChar '\\' name, false)
      else
        match matchChunkF chunk name with
        | .ok t =>
          if t.isEmpty ∨ rest ≠ [] then gmLoop fuel rest t
          else if star then
            match gmStar chunk rest name with
            | .done r => r
            | .cont t' => gmLoop fuel rest t'
          else (false, valLoop rest)
        | .bad => (false, true)
        | .fail =>
          if star then
            match gmStar chunk rest name with
            | .done r => r
            | .cont t' => gmLoop fuel rest t'
          else (false, valLoop rest)


/-- Go `filepath.Match` on Windows; the Boolean result (errors make it false,
and the callers in this repository discard the error). -/
def goMatch (pattern name : Str) : Bool :=
  (gmLoop pattern.length pattern name).1

/-! ## The repository's `ntpath` grammar engine -/

def ReservedNames : List Str :=
  [str "CON", str "PRN", str "AUX", str "NUL", str "COM1", str "COM2", str "COM3",
   str "COM4", str "COM5", str "COM6", str "COM7", str "COM8", str "COM9",
   str "LPT1", str "LPT2", str "LPT3", str "LPT4", str "LPT5", str "LPT6",
   str "LPT7", str "LPT8", str "LPT9"]

def InvalidChars : Str := str "<>:/\\|?*\""

/-- `ntpath.Clean`: `filepath.Clean`, slash normalization, a trailing
separator for a 3-separator UNC anchor, and stripping a trailing `.` after
a drive. -/
def ntClean (path0 : Str) : Str :=
  let path := goClean path0
  let path := replaceAllChar '/' '\\' path
  let path :=
    if startsWith path (str "\\\\") then
      if countChar '\\' path = 3 ∧ ¬ endsWith path (str "\\") then path ++ ['\\'] else path
    else path
  if path.length ≥ 2 ∧ path.getD 1 ' ' = ':' ∧ endsWith path (str ".") then
    trimSuffix path (str ".")
  else path

def isAsciiAlpha (c : Char) : Bool :=
  ('A' ≤ c ∧ c ≤ 'Z') ∨ ('a' ≤ c ∧ c ≤ 'z')

/-- The anchored UNC regex `^\\\\[^\\]+\\[^\\]+\\` — the length of its
(unique) match, if any. -/
def uncAnchorLen (path : Str) : Option Nat :=
  match path with
  | '\\' :: '\\' :: rest =>
    let s1 := rest.takeWhile (fun c => c ≠ '\\')
    if s1 = [] then none
    else
      match rest.drop s1.length with
      | '\\' :: rest2 =>
        let s2 := rest2.takeWhile (fun c => c ≠ '\\')
        if s2 = [] then none
        else
          match rest2.drop s2.length with
          | '\\' :: _ => some (2 + s1.length + 1 + s2.length + 1)
          | _ => none
      | _ => none
  | _ => none

/-- Does the drive regex `(?i)^[A-Za-z]:\\?` match, and how long is the match? -/
def driveAnchorLen (path : Str) : Option Nat :=
  if path.length ≥ 2 ∧ isAsciiAlpha (path.getD 0 ' ') ∧ path.getD 1 ' ' = ':' then
    some (if path.getD 2 ' ' = '\\' ∧ path.length ≥ 3 then 3 else 2)
  else none

/-- `ntpath.Parts`. -/
def ntParts (path0 : Str) : List Str :=
  if path0 = str "." then []
  else
    let path := ntClean path0
    match uncAnchorLen path with
    | some n =>
      let anchor := path.take n
      if path.length = n then [anchor]
      else anchor :: splitOnChar '\\' (path.drop n)
    | none =>
      match driveAnchorLen path with
      | some n =>
        let anchor := path.take n
        if path.length = n then [anchor]
        else anchor :: splitOnChar '\\' (path.drop n)
      | none =>
        if startsWith path (str "\\") then
          if path.length = 1 then [str "\\"]
          else str "\\" :: splitOnChar '\\' (path.drop 1)
        else splitOnChar '\\' path

/-- `ntpath.Drive`. -/
def ntDrive (path : Str) : Str :=
  match ntParts path with
  | [] => []
  | first :: _ =>
    if startsWith first (str "\\\\") then trimSuffix first (str "\\")
    else if first.length ≥ 2 ∧ first.getD 1 ' ' = ':' then trimSuffix first (str "\\")
    else []

/-- `ntpath.Root`. -/
def ntRoot (path : Str) : Str :=
  match ntParts path with
  | [] => []
  | first :: _ =>
    if startsWith first (str "\\\\") then str "\\"
    else if first.length ≥ 2 ∧ first.getD 1 ' ' = ':' ∧ endsWith first (str "\\") then str "\\"
    else if first = str "\\" then str "\\"
    else []

/-- `ntpath.Anchor`. -/
def ntAnchor (path : Str) : Str := ntDrive path ++ ntRoot path

/-- Error taxonomy of the path-algebra layer. -/
inductive PErr where
  | noName
  | notRelative
  | invalidName
  | invalidAnchor
  | invalidSuffix
deriving Repr, DecidableEq

instance : DecidableEq (Except PErr Str) := fun a b =>
  match a, b with
  | .ok a, .ok b => if h : a = b then .isTrue (by rw [h]) else .isFalse (by simp [h])
  | .error a, .error b => if h : a = b then .isTrue (by rw [h]) else .isFalse (by simp [h])
  | .ok _, .error _ => .isFalse (by simp)
  | .error _, .ok _ => .isFalse (by simp)

def isSpaceGo (c : Char) : Bool :=
  c = '\t' ∨ c = '\n' ∨ c = Char.ofNat 12 ∨ c = '\r' ∨ c = ' '

/-- `ntpath.ValidateName`: `none` means the name is valid. -/
def validateName (name : Str) : Option PErr :=
  if name.length = 0 then some .noName
  else if name.length > 255 then some .invalidName
  else if name.getLastD ' ' = '.' then some .invalidName
  else if isSpaceGo (name.getLastD '.') then some .invalidName
  else if name.any (fun c => c = '\n' ∨ c = '\r') then some .invalidName
  else if InvalidChars.any (fun c => containsChar c name) then some .invalidName
  else if ReservedNames.any (fun r => equalFold name r) then some .invalidName
  else none

/-- `ntpath.ValidateAnchor`: `none` means the anchor is valid. -/
def validateAnchor (anchor0 : Str) : Option PErr :=
  let anchor := replaceAllChar '/' '\\' anchor0
  if startsWith anchor (str "\\\\") then
    -- must match ^\\\\[^\\]+\\[^\\]+\\$
    if uncAnchorLen anchor = some anchor.length then none else some .invalidAnchor
  else if containsChar ':' anchor then
    -- must match (?i)^[A-Z]:\\?$
    if (anchor.length = 2 ∧ isAsciiAlpha (anchor.getD 0 ' ') ∧ anchor.getD 1 ' ' = ':')
      ∨ (anchor.length = 3 ∧ isAsciiAlpha (anchor.getD 0 ' ') ∧ anchor.getD 1 ' ' = ':'
          ∧ anchor.getD 2 ' ' = '\\') then none
    else some .invalidAnchor
  else if anchor = str "\\" ∨ anchor = [] then none
  else some .invalidAnchor

/-- `ntpath.ValidatePath`. -/
def validatePath (path0 : Str) : Option PErr :=
  let path := ntClean path0
  let anchor := ntAnchor path
  let parts := ntParts path
  let rest := if anchor ≠ [] then parts.tail else parts
  if anchor ≠ [] ∧ (validateAnchor anchor).isSome then validateAnchor anchor
  else rest.findSome? validateName

/-- `ntpath.ToValidName`. -/
def toValidName (name0 : Str) : Str :=
  if name0.length = 0 then str "_"
  else
    let name := if name0.length > 255 then name0.take 255 else name0
    let name := name.map (fun c => if containsChar c InvalidChars then '_' else c)
    -- strip the trailing run matched by `[\s.]+$`
    let name := (name.reverse.dropWhile (fun c => isSpaceGo c ∨ c = '.')).reverse
    let name := name.map (fun c => if c = '\n' then ' ' else if c = '\r' then ' ' else c)
    let name := if ReservedNames.any (fun r => equalFold name r) then name ++ ['_'] else name
    if name.length = 0 then str "_" else name

/-- The memoized matcher of `ntpath.Match` as the function it computes on
`(patternIdx, pathIdx)` pairs (the memo table does not change the value).
The fuel is the pattern length plus one; every step consumes one pattern
segment. -/
def msF : Nat → List Str → List Str → Bool
  | 0, _, _ => false
  | _ + 1, [], path => path.isEmpty
  | fuel + 1, p :: ps, path =>
    if p = str "**" then
      -- for currentPathPos := pathIdx; currentPathPos <= len; currentPathPos++
      (List.range (path.length + 1)).any (fun k => msF fuel ps (path.drop k))
    else
      match path with
      | [] => false
      | s :: ss => goMatch p s && msF fuel ps ss

/-- `ntpath.Match`. -/
def ntMatch (pattern path : Str) : Bool :=
  let pattern := toSlash pattern
  let path := toSlash path
  let patternParts := splitOnChar '/' pattern
  let pathParts := splitOnChar '/' path
  msF (patternParts.length + 1) patternParts pathParts

/-! ## `PureWindowsPath` (a value is its normalized path string) -/

/-- One merge step of `NewPureWindowsPath`'s loop; `seg` is already cleaned. -/
def mergeSeg (path seg : Str) : Str :=
  if startsWith seg (str "\\\\") then
    -- UNC absolute: overwrite
    seg
  else if seg.length ≥ 2 ∧ isAsciiAlpha (seg.getD 0 ' ') ∧ seg.getD 1 ' ' = ':' then
    let drive := seg.take 2
    if seg.length ≥ 3 ∧ seg.getD 2 ' ' = '\\' then
      -- drive-absolute: overwrite
      seg
    else if startsWith path drive then
      -- same drive: append the part after the drive
      goJoin2 path (seg.drop 2)
    else
      -- different drive: overwrite
      seg
  else if startsWith seg (str "\\") then
    -- rootless-absolute segment
    if path.length ≥ 3 ∧ isAsciiAlpha (path.getD 0 ' ') ∧ path.getD 1 ' ' = ':'
        ∧ path.getD 2 ' ' = '\\' then
      path.take 2 ++ seg
    else
      seg
  else
    -- ordinary relative segment
    goJoin2 path seg

/-- `NewPureWindowsPath` (the resulting normalized string). -/
def newPWP (segments : List Str) : Str :=
  if segments = [] then str "."
  else if segments.length = 1 ∧ (segments.headD [] = [] ∨ segments.headD [] = str ".") then
    str "."
  else
    ntClean ((segments.tail).foldl (fun acc seg => mergeSeg acc (ntClean seg)) (ntClean (segments.headD [])))

def pDrive (p : Str) : Str := ntDrive p
def pRoot (p : Str) : Str := ntRoot p
def pAnchor (p : Str) : Str := ntAnchor p

/-- `PureWindowsPath.Parent`. -/
def pParent (p : Str) : Str :=
  let anchor := ntAnchor p
  let parts := ntParts p
  match parts with
  | [] => newPWP [str "."]
  | [single] => if anchor ≠ [] then newPWP [single] else newPWP [str "."]
  | _ :: _ :: _ =>
    let newParts := parts.dropLast
    let newPath :=
      if anchor = [] then interc (str "\\") newParts
      else parts.headD [] ++ interc (str "\\") newParts.tail
    newPWP [newPath]

/-- `PureWindowsPath.Name`. -/
def pName (p : Str) : Str :=
  let parts := ntParts p
  match parts with
  | [] => []
  | _ :: _ =>
    if ntAnchor p ≠ [] then
      if parts.length = 1 then [] else parts.getLastD []
    else parts.getLastD []

/-- `PureWindowsPath.Suffixes`. -/
def pSuffixes (p : Str) : List Str :=
  let name := pName p
  if name = [] then []
  else
    let nameParts := splitOnChar '.' name
    if nameParts.length ≤ 1 then []
    else nameParts.tail.map (fun s => '.' :: s)

/-- `PureWindowsPath.Suffix`. -/
def pSuffix (p : Str) : Str := (pSuffixes p).getLastD []

/-- `PureWindowsPath.Stem`. -/
def pStem (p : Str) : Str := trimSuffix (pName p) (pSuffix p)

/-- `PureWindowsPath.Join`. -/
def pJoin (p : Str) (segments : List Str) : Str := newPWP (p :: segments)

/-- `PureWindowsPath.IsAbs`. -/
def pIsAbs (p : Str) : Bool := ntDrive p ≠ [] ∧ ntRoot p ≠ []

/-- `PureWindowsPath.WithAnchor`. -/
def withAnchor (p anchor : Str) : Except PErr Str :=
  match validateAnchor anchor with
  | some e => .error e
  | none =>
    let parts := ntParts p
    let curAnchor := ntAnchor p
    let parts := if curAnchor = [] then anchor :: parts else anchor :: parts.tail
    .ok (newPWP parts)

/-- `PureWindowsPath.WithName`. -/
def withName (p name : Str) : Except PErr Str :=
  if pName p = [] then .error .noName
  else
    match validateName name with
    | some e => .error e
    | none => .ok (newPWP [p, str "..", name])

/-- `PureWindowsPath.WithParent`. -/
def withParent (p parent : Str) : Except PErr Str :=
  if pName p = [] then .error .noName
  else .ok (pJoin parent [pName p])

/-- `PureWindowsPath.WithStem`. -/
def withStem (p stem : Str) : Except PErr Str :=
  if pName p = [] then .error .noName
  else
    let newName := stem ++ pSuffix p
    match validateName newName with
    | some e => .error e
    | none => .ok (newPWP [p, str "..", newName])

/-- `PureWindowsPath.WithSuffix`. -/
def withSuffix (p suffix : Str) : Except PErr Str :=
  if pName p = [] then .error .noName
  else if ¬ startsWith suffix (str ".") then .error .invalidSuffix
  else
    let stem := pStem p
    let suffixes := pSuffixes p
    let firstDotPart := stem.takeWhile (fun c => c ≠ '.')
    let suffixes := if suffixes = [] then [suffix] else suffixes.dropLast ++ [suffix]
    let newName := firstDotPart ++ suffixes.foldl (· ++ ·) []
    match validateName newName with
    | some e => .error e
    | none => .ok (newPWP [p, str "..", newName])

/-- `PureWindowsPath.ToValid`. -/
def toValidP (p : Str) : Str :=
  let anchor := ntAnchor p
  let parts := ntParts p
  let parts := if anchor ≠ [] then parts.tail else parts
  let parts := parts.map toValidName
  newPWP (anchor :: parts)

/-- `PureWindowsPath.IsRelTo`. -/
def isRelTo (p other : Str) (walkUp : Bool) : Bool :=
  let pPath := lowerStr p
  let otherPath := lowerStr other
  let pAnc := lowerStr (ntAnchor p)
  let otherAnc := lowerStr (ntAnchor other)
  if pAnc ≠ [] then
    if walkUp then pAnc = otherAnc
    else startsWith pPath otherPath && pAnc = otherAnc
  else
    if otherAnc ≠ [] then false
    else otherPath = str "." || startsWith pPath otherPath

/-- The common-prefix loop of `RelTo`
(`for i := 0; i < len(otherParts); i++ { if !EqualFold(parts[i], otherParts[i]) break ... }`).
Evaluating `parts[i]` with `i ≥ len(parts)` is an index-out-of-range runtime
panic in Go; that outcome is `none`. -/
def commonLen : List Str → List Str → Option Nat
  | _, [] => some 0
  | [], _ :: _ => none
  | p :: ps, o :: os =>
    if equalFold p o then (commonLen ps os).map (· + 1) else some 0

/-- Outcome of `RelTo`: a value, a typed failure, or a runtime panic. -/
inductive RelToRes where
  | ok (p : Str)
  | err (e : PErr)
  | oobCrash
deriving Repr, DecidableEq

/-- `PureWindowsPath.RelTo`. -/
def relTo (p other : Str) (walkUp : Bool) : RelToRes :=
  if ¬ isRelTo p other walkUp then .err .notRelative
  else
    let parts := ntParts p
    let otherParts := ntParts other
    match commonLen parts otherParts with
    | none => .oobCrash
    | some commonLength =>
      if ¬ walkUp then .ok (newPWP (parts.drop commonLength))
      else
        let upLevels := otherParts.length - commonLength
        .ok (newPWP (List.replicate upLevels (str "..") ++ parts.drop commonLength))

/-- `PureWindowsPath.RelToFile`. -/
def relToFile (p other : Str) (walkUp : Bool) : RelToRes :=
  relTo p (pParent other) walkUp

/-- `PureWindowsPath.FullMatch`. -/
def fullMatch (p pattern0 : Str) (cs : Bool) : Bool :=
  let path := if ¬cs then lowerStr p else p
  let pattern := if ¬cs then lowerStr pattern0 else pattern0
  let pattern := ntClean pattern
  ntMatch pattern path

/-- `PureWindowsPath.Match`. -/
def pMatch (p pattern0 : Str) (cs : Bool) : Bool :=
  let pattern := if ¬cs then lowerStr pattern0 else pattern0
  let patternPath := newPWP [pattern]
  if pIsAbs patternPath ∨ ntDrive patternPath ≠ [] then fullMatch p pattern0 cs
  else
    let parts := ntParts p
    let patternParts := ntParts patternPath
    if parts.length < patternParts.length then false
    else
      (List.range patternParts.length).all (fun i =>
        goMatch (patternParts.getD i []) (parts.getD (parts.length - 1 - i) []))

/-! ## The filesystem layer: abstract filesystem, `Remove`, and `Walk`

The filesystem-access capability (stat/lstat, readlink, readdir, remove)
is out of scope of the source and is consumed abstractly; it is modelled
as a finite map from absolute path strings to nodes.  `filepath.Abs`
(whose Windows implementation defers to the `GetFullPathName` system
call) is modelled lexically: an absolute path is cleaned, a relative one
is joined onto the working directory. -/

inductive FNode where
  | dir (children : List Str)
  | file
  | link (target : Str)
deriving Repr, DecidableEq

structure FS where
  cwd : Str
  entries : List (Str × FNode)
deriving Repr, DecidableEq

def lookupFS (fs : FS) (key : Str) : Option FNode :=
  (fs.entries.find? (fun e => e.1 = key)).map (·.2)

/-- Model of `filepath.Abs` (see the section header). -/
def toAbs (fs : FS) (p : Str) : Str :=
  if goIsAbs p then goClean p else goJoin2 fs.cwd p

/-- `Lstat`-existence: `p.Exists(false)` — a dangling symlink exists. -/
def existsL (fs : FS) (p : Str) : Bool := (lookupFS fs (toAbs fs p)).isSome

/-- `p.IsLink()` (lstat-based). -/
def isLinkFS (fs : FS) (p : Str) : Bool :=
  match lookupFS fs (toAbs fs p) with
  | some (.link _) => true
  | _ => false

/-- `p.IsDir(false)` (lstat-based). -/
def isDirFS (fs : FS) (p : Str) : Bool :=
  match lookupFS fs (toAbs fs p) with
  | some (.dir _) => true
  | _ => false

/-- `p.Resolve()`: convert to the absolute form, then read the link once;
the raw target is wrapped in a new path value (which normalizes it). -/
def resolveFS (fs : FS) (p : Str) : Except Unit Str :=
  match lookupFS fs (toAbs fs p) with
  | some (.link t) => .ok (newPWP [t])
  | _ => .error ()

/-- `p.ReadDir()`: the children, each built as `p.Join(name)`. -/
def readDirFS (fs : FS) (p : Str) : Except Unit (List Str) :=
  match lookupFS fs (toAbs fs p) with
  | some (.dir names) => .ok (names.map (fun n => pJoin p [n]))
  | _ => .error ()

/-- Errors of the filesystem layer used by `Remove`. -/
inductive FsErr where
  | removeFailed
deriving Repr, DecidableEq

instance : DecidableEq (Except FsErr Unit) := fun a b =>
  match a, b with
  | .ok (), .ok () => .isTrue rfl
  | .error .removeFailed, .error .removeFailed => .isTrue rfl
  | .ok _, .error _ => .isFalse (by simp)
  | .error _, .ok _ => .isFalse (by simp)

/-- `WindowsPath.Remove`: an absent path (by lstat) is a silent success;
otherwise `os.RemoveAll` (recursive, removes the whole subtree) or
`os.Remove` (fails on a non-empty directory). -/
def removeFS (fs : FS) (p : Str) (recursive : Bool) : Except FsErr Unit × FS :=
  if ¬ existsL fs p then (.ok (), fs)
  else
    let key := toAbs fs p
    if recursive then
      (.ok (), ⟨fs.cwd, fs.entries.filter
        (fun e => ¬ (e.1 = key ∨ startsWith e.1 (key ++ str "\\")))⟩)
    else
      match lookupFS fs key with
      | some (.dir (_ :: _)) => (.error .removeFailed, fs)
      | _ => (.ok (), ⟨fs.cwd, fs.entries.filter (fun e => ¬ e.1 = key)⟩)

/-! ### The walker (`Walk` / `walkRecursively`) -/

/-- The error values flowing through a walk callback. -/
inductive WErr where
  | walkSkip
  | walkStop
  | walkCycle
  | resolveErr
  | readDirErr
  | other (n : Nat)
deriving Repr, DecidableEq

/-- A walk callback (`fn func(path IPath, err error) error`), as a pure
function of the invoked path and the passed condition. -/
abbrev Cb := Str → Option WErr → Option WErr

/-- `shouldStopWalk`. -/
def shouldStopWalk (e : Option WErr) : Bool := e ≠ none ∧ e ≠ some .walkSkip

/-- One callback invocation in the trace of a walk: the guarded key it
belongs to, the invoked path and the condition passed to the callback. -/
structure TE where
  guard : Str
  invoked : Str
  cond : Option WErr
deriving Repr, DecidableEq

/-- The visited map (`map[string]int`, missing keys read as 0). -/
abbrev VMap := List (Str × Nat)

def lookupV (v : VMap) (k : Str) : Nat :=
  match v.find? (fun e => e.1 = k) with
  | some e => e.2
  | none => 0

def setV (v : VMap) (k : Str) (n : Nat) : VMap :=
  if v.any (fun e => e.1 = k) then v.map (fun e => if e.1 = k then (k, n) else e)
  else (k, n) :: v

/-- A walk outcome: the returned error, the trace of callback invocations,
and the final visited map (`none` only when the fuel runs out, which the
sufficiency theorems rule out). -/
abbrev WRes := Option (Option WErr × List TE × VMap)

/-- The loop over children (`for _, child := range children`). -/
def kidsGo (step : Str → VMap → WRes) : List Str → VMap → WRes
  | [], v => some (none, [], v)
  | c :: cs, v =>
    match step c v with
    | none => none
    | some (e, tr, v') =>
      if shouldStopWalk e then some (e, tr, v')
      else
        match kidsGo step cs v' with
        | none => none
        | some (e2, tr2, v'') => some (e2, tr ++ tr2, v'')

/-- The body of `walkRecursively`, parameterized by the walker used for
the recursive calls on children. -/
def walkStep (fs : FS) (fn : Cb) (follow : Bool)
    (walkPrev : Str → VMap → WRes) (root : Str) (visited : VMap) : WRes :=
  let pathKey := toAbs fs root
  if lookupV visited pathKey = 1 then
    -- revisit of an in-progress node: cycle detected
    some (fn pathKey (some .walkCycle), [⟨pathKey, pathKey, some .walkCycle⟩], visited)
  else if lookupV visited pathKey = 2 then
    -- already fully visited: skip silently
    some (none, [], visited)
  else
    let v1 := setV visited pathKey 1
    -- the deferred `visited[pathKey] = 2` applies on every exit below
    let resolved : Except (Option WErr × List TE) Str :=
      if follow ∧ isLinkFS fs root then
        match resolveFS fs root with
        | .error _ => .error (fn root (some .resolveErr), [⟨pathKey, root, some .resolveErr⟩])
        | .ok target =>
          if isRelTo pathKey target false then
            -- the link points back into a parent directory
            .error (fn pathKey (some .walkCycle), [⟨pathKey, pathKey, some .walkCycle⟩])
          else .ok target
      else .ok root
    match resolved with
    | .error (e, tr) => some (e, tr, setV v1 pathKey 2)
    | .ok root =>
      let e1 := fn root none
      let t1 : TE := ⟨pathKey, root, none⟩
      if shouldStopWalk e1 then some (e1, [t1], setV v1 pathKey 2)
      else if ¬ isDirFS fs root then some (none, [t1], setV v1 pathKey 2)
      else if e1 = some .walkSkip then some (none, [t1], setV v1 pathKey 2)
      else
        match readDirFS fs root with
        | .error _ =>
          some (fn root (some .readDirErr), [t1, ⟨pathKey, root, some .readDirErr⟩],
            setV v1 pathKey 2)
        | .ok children =>
          match kidsGo walkPrev children v1 with
          | none => none
          | some (e, tr, v2) => some (e, t1 :: tr, setV v2 pathKey 2)

/-- `walkRecursively`, with fuel bounding the number of freshly marked
keys (every level of recursion first marks an unmarked key of the finite
filesystem, so `fuel = |entries| + 1` always suffices; made precise by
the fuel-stability theorem of claim C1). -/
def walkRecF (fs : FS) (fn : Cb) (follow : Bool) : Nat → Str → VMap → WRes
  | 0, _, _ => none
  | fuel + 1, root, visited =>
    walkStep fs fn follow (walkRecF fs fn follow fuel) root visited

/-- `Walk` (the `follow` default is handled by the caller). -/
def walkFS (fs : FS) (fn : Cb) (follow : Bool) (root : Str) : WRes :=
  walkRecF fs fn follow (fs.entries.length + 1) root []

/-! ### Invariants of the walker -/

/-- Number of filesystem entries not yet marked: the walk's termination
measure. -/
def muFS (fs : FS) (v : VMap) : Nat :=
  (fs.entries.filter (fun e => lookupV v e.1 = 0)).length

/-- Well-formed visited maps carry only the marks 0 (absent), 1, 2. -/
def VOK (v : VMap) : Prop := ∀ k, lookupV v k ≤ 2

/-- Number of nil-condition callback invocations guarded by key `k`. -/
def nilCount (tr : List TE) (k : Str) : Nat :=
  (tr.filter (fun t => t.cond = none ∧ t.guard = k)).length

theorem find_setV_map_self (es : VMap) (k : Str) (n : Nat)
    (hany : es.any (fun e => e.1 = k) = true) :
    (es.map (fun e => if e.1 = k then (k, n) else e)).find? (fun e => e.1 = k)
      = some (k, n) := by
  induction es with
  | nil => simp at hany
  | cons e es ih =>
    simp only [List.map_cons]
    by_cases he : e.1 = k
    · rw [if_pos he]
      rw [List.find?_cons_of_pos _ (by simp)]
    · rw [if_neg he]
      rw [List.find?_cons_of_neg _ (by simpa using he)]
      apply ih
      simp only [List.any_cons] at hany
      rcases Bool.or_eq_true_iff.mp hany with h1 | h1
      · exact absurd (by simpa using h1) he
      · exact h1

theorem find_setV_map_ne (es : VMap) (k k' : Str) (n : Nat) (h : k' ≠ k) :
    (es.map (fun e => if e.1 = k then (k, n) else e)).find? (fun e => e.1 = k')
      = es.find? (fun e => e.1 = k') := by
  induction es with
  | nil => rfl
  | cons e es ih =>
    simp only [List.map_cons]
    by_cases he : e.1 = k
    · rw [if_pos he]
      rw [List.find?_cons_of_neg _ (by simpa using Ne.symm h),
        List.find?_cons_of_neg _ (by simp [he, Ne.symm h])]
      exact ih
    · rw [if_neg he]
      by_cases he' : e.1 = k'
      · rw [List.find?_cons_of_pos _ (by simpa using he'),
          List.find?_cons_of_pos _ (by simpa using he')]
      · rw [List.find?_cons_of_neg _ (by simpa using he'),
          List.find?_cons_of_neg _ (by simpa using he')]
        exact ih

theorem lookupV_setV_self (v : VMap) (k : Str) (n : Nat) :
    lookupV (setV v k n) k = n := by
  simp only [setV]
  split
  next hany => rw [lookupV, find_setV_map_self v k n hany]
  next => rw [lookupV, List.find?_cons_of_pos _ (by simp)]

theorem lookupV_setV_ne (v : VMap) (k k' : Str) (n : Nat) (h : k' ≠ k) :
    lookupV (setV v k n) k' = lookupV v k' := by
  simp only [setV]
  split
  · rw [lookupV, find_setV_map_ne v k k' n h, lookupV]
  · rw [lookupV, List.find?_cons_of_neg _ (by simpa using Ne.symm h), lookupV]

theorem VOK_setV (v : VMap) (k : Str) (n : Nat) (hn : n ≤ 2) (h : VOK v) :
    VOK (setV v k n) := by
  intro k'
  by_cases hk : k' = k
  · rw [hk, lookupV_setV_self]
    exact hn
  · rw [lookupV_setV_ne _ _ _ _ hk]
    exact h k'

theorem filter_length_mono {α : Type} (l : List α) (p q : α → Bool)
    (hpq : ∀ a, a ∈ l → q a → p a) : (l.filter q).length ≤ (l.filter p).length := by
  induction l with
  | nil => simp
  | cons a as ih =>
    have ih' := ih (fun x hx => hpq x (List.mem_cons_of_mem _ hx))
    by_cases hq : q a
    · rw [List.filter_cons_of_pos hq, List.filter_cons_of_pos (hpq a (List.mem_cons_self _ _) hq)]
      simpa using ih'
    · rw [List.filter_cons_of_neg (by simpa using hq)]
      by_cases hp : p a
      · rw [List.filter_cons_of_pos hp]
        exact Nat.le_trans ih' (Nat.le_succ _)
      · rw [List.filter_cons_of_neg (by simpa using hp)]
        exact ih'

theorem filter_length_strict {α : Type} (l : List α) (p q : α → Bool)
    (hpq : ∀ a, a ∈ l → q a → p a) (a : α) (ha : a ∈ l) (hpa : p a) (hqa : ¬ q a) :
    (l.filter q).length < (l.filter p).length := by
  induction l with
  | nil => simp at ha
  | cons x xs ih =>
    rcases List.mem_cons.mp ha with hax | hax
    · subst hax
      rw [List.filter_cons_of_pos hpa, List.filter_cons_of_neg (by simpa using hqa)]
      have := filter_length_mono xs p q (fun y hy => hpq y (List.mem_cons_of_mem _ hy))
      simpa using Nat.lt_succ_of_le this
    · have ih' := ih (fun y hy => hpq y (List.mem_cons_of_mem _ hy)) hax
      by_cases hq : q x
      · rw [List.filter_cons_of_pos (hpq x (List.mem_cons_self _ _) hq),
          List.filter_cons_of_pos hq]
        simpa using ih'
      · rw [List.filter_cons_of_neg (by simpa using hq)]
        by_cases hp : p x
        · rw [List.filter_cons_of_pos hp]
          exact Nat.lt_succ_of_lt ih'
        · rw [List.filter_cons_of_neg (by simpa using hp)]
          exact ih'

/-- Growing the set of marked keys cannot increase the measure. -/
theorem muFS_mono (fs : FS) (v v' : VMap)
    (h : ∀ k, lookupV v k ≠ 0 → lookupV v' k ≠ 0) : muFS fs v' ≤ muFS fs v := by
  apply filter_length_mono
  intro e _ he
  by_contra hc
  exact absurd (by simpa using h e.1 (by simpa using hc)) (by simpa using he)

theorem lookupFS_mem_keys (fs : FS) (k : Str) (n : FNode) (h : lookupFS fs k = some n) :
    ∃ e ∈ fs.entries, e.1 = k := by
  simp only [lookupFS, Option.map_eq_some'] at h
  rcases h with ⟨e, he, -⟩
  have hmem := List.mem_of_find?_eq_some he
  have hk := List.find?_some he
  exact ⟨e, hmem, by simpa using hk⟩

/-- Marking a fresh filesystem key strictly decreases the measure. -/
theorem muFS_set_lt (fs : FS) (v : VMap) (k : Str)
    (h0 : lookupV v k = 0) (hmem : ∃ e ∈ fs.entries, e.1 = k) :
    muFS fs (setV v k 1) < muFS fs v := by
  rcases hmem with ⟨e, hmem, hek⟩
  refine filter_length_strict fs.entries _ _ ?_ e hmem ?_ ?_
  · intro a _ ha
    by_cases hak : a.1 = k
    · rw [hak, lookupV_setV_self] at ha
      simp at ha
    · simpa [lookupV_setV_ne _ _ _ _ hak] using ha
  · simpa [hek] using h0
  · simp [hek, lookupV_setV_self]

theorem nilCount_append (a b : List TE) (k : Str) :
    nilCount (a ++ b) k = nilCount a k + nilCount b k := by
  simp [nilCount, List.filter_append]

theorem nilCount_cons_nil (g p : Str) (rest : List TE) (k : Str) :
    nilCount (⟨g, p, none⟩ :: rest) k
      = (if k = g then 1 else 0) + nilCount rest k := by
  by_cases hk : k = g
  · simp [nilCount, List.filter_cons, hk, Nat.add_comm]
  · simp [nilCount, List.filter_cons, Ne.symm hk, hk]

theorem nilCount_cons_some (g p : Str) (w : WErr) (rest : List TE) (k : Str) :
    nilCount (⟨g, p, some w⟩ :: rest) k = nilCount rest k := by
  simp [nilCount, List.filter_cons]

/-- The walker invariant: marks only grow (0 can become anything, 1 and 2
are final), well-formedness is preserved, and each key guards at most one
nil-condition callback, which happens exactly on the unique run of its
guarded body (the key being fresh before and DONE afterwards). -/
def WInv (v : VMap) (tr : List TE) (v' : VMap) : Prop :=
  (∀ k, lookupV v k ≠ 0 → lookupV v' k ≠ 0) ∧
  (∀ k, lookupV v k = 1 → lookupV v' k = 1) ∧
  (∀ k, lookupV v k = 2 → lookupV v' k = 2) ∧
  (VOK v → VOK v') ∧
  (∀ k, nilCount tr k ≤ 1 ∧
    (1 ≤ nilCount tr k → (lookupV v k ≠ 1 ∧ lookupV v k ≠ 2) ∧ lookupV v' k = 2))

theorem WInv_refl (v : VMap) : WInv v [] v := by
  refine ⟨fun k h => h, fun k h => h, fun k h => h, fun h => h, fun k => ⟨by simp [nilCount], ?_⟩⟩
  intro h
  simp [nilCount] at h

theorem WInv_comp {v : VMap} {tr1 : List TE} {v1 : VMap} {tr2 : List TE} {v2 : VMap}
    (h1 : WInv v tr1 v1) (h2 : WInv v1 tr2 v2) : WInv v (tr1 ++ tr2) v2 := by
  obtain ⟨m0, m1, m2, mv, n1⟩ := h1
  obtain ⟨m0', m1', m2', mv', n1'⟩ := h2
  refine ⟨fun k h => m0' k (m0 k h), fun k h => m1' k (m1 k h),
    fun k h => m2' k (m2 k h), fun h => mv' (mv h), fun k => ?_⟩
  rw [nilCount_append]
  obtain ⟨c1le, c1f⟩ := n1 k
  obtain ⟨c2le, c2f⟩ := n1' k
  by_cases hc1 : 1 ≤ nilCount tr1 k
  · obtain ⟨⟨hk1, hk2⟩, hdone⟩ := c1f hc1
    have hc2 : nilCount tr2 k = 0 := by
      by_contra hne
      obtain ⟨⟨hk1', hk2'⟩, -⟩ := c2f (by omega)
      exact hk2' hdone
    refine ⟨by omega, fun _ => ⟨⟨hk1, hk2⟩, m2' k hdone⟩⟩
  · have hz : nilCount tr1 k = 0 := by omega
    rw [hz, Nat.zero_add]
    refine ⟨c2le, fun h => ?_⟩
    obtain ⟨⟨hk1', hk2'⟩, hdone⟩ := c2f h
    refine ⟨⟨fun h1 => hk1' (m1 k h1), fun h2 => hk2' (m2 k h2)⟩, hdone⟩

/-- A body run that marks its key IN_PROGRESS and DONE and produces only
trace entries guarded by that key (at most one of them nil). -/
theorem WInv_markDone (v : VMap) (key : Str) (tr : List TE)
    (h1 : lookupV v key ≠ 1) (h2 : lookupV v key ≠ 2)
    (hn : ∀ k, nilCount tr k ≤ 1 ∧ (1 ≤ nilCount tr k → k = key)) :
    WInv v tr (setV (setV v key 1) key 2) := by
  refine ⟨?_, ?_, ?_, ?_, ?_⟩
  · intro k hk
    by_cases hkk : k = key
    · rw [hkk, lookupV_setV_self]
      simp
    · rw [lookupV_setV_ne _ _ _ _ hkk, lookupV_setV_ne _ _ _ _ hkk]
      exact hk
  · intro k hk
    have hkk : k ≠ key := fun hc => h1 (hc ▸ hk)
    rw [lookupV_setV_ne _ _ _ _ hkk, lookupV_setV_ne _ _ _ _ hkk]
    exact hk
  · intro k hk
    have hkk : k ≠ key := fun hc => h2 (hc ▸ hk)
    rw [lookupV_setV_ne _ _ _ _ hkk, lookupV_setV_ne _ _ _ _ hkk]
    exact hk
  · intro hv
    exact VOK_setV _ _ _ (by omega) (VOK_setV _ _ _ (by omega) hv)
  · intro k
    refine ⟨(hn k).1, fun hge => ?_⟩
    have hkk := (hn k).2 hge
    subst hkk
    exact ⟨⟨h1, h2⟩, by rw [lookupV_setV_self]⟩

/-- A body run that recursed into children. -/
theorem WInv_withKids (v : VMap) (key inv1 : Str) (trK : List TE) (v2 : VMap)
    (h1 : lookupV v key ≠ 1) (h2 : lookupV v key ≠ 2)
    (hkids : WInv (setV v key 1) trK v2) :
    WInv v (⟨key, inv1, none⟩ :: trK) (setV v2 key 2) := by
  obtain ⟨m0, m1, m2, mv, nn⟩ := hkids
  have hv1key : lookupV (setV v key 1) key = 1 := lookupV_setV_self _ _ _
  have hkzero : nilCount trK key = 0 := by
    by_contra hc
    obtain ⟨⟨hk1, -⟩, -⟩ := (nn key).2 (by omega)
    exact hk1 hv1key
  have hv2key : lookupV v2 key = 1 := m1 key hv1key
  refine ⟨?_, ?_, ?_, ?_, ?_⟩
  · intro k hk
    by_cases hkk : k = key
    · rw [hkk, lookupV_setV_self]
      simp
    · rw [lookupV_setV_ne _ _ _ _ hkk]
      exact m0 k (by rw [lookupV_setV_ne _ _ _ _ hkk]; exact hk)
  · intro k hk
    have hkk : k ≠ key := fun hc => h1 (hc ▸ hk)
    rw [lookupV_setV_ne _ _ _ _ hkk]
    exact m1 k (by rw [lookupV_setV_ne _ _ _ _ hkk]; exact hk)
  · intro k hk
    have hkk : k ≠ key := fun hc => h2 (hc ▸ hk)
    rw [lookupV_setV_ne _ _ _ _ hkk]
    exact m2 k (by rw [lookupV_setV_ne _ _ _ _ hkk]; exact hk)
  · intro hv
    exact VOK_setV _ _ _ (by omega) (mv (VOK_setV _ _ _ (by omega) hv))
  · intro k
    rw [nilCount_cons_nil]
    by_cases hkk : k = key
    · subst hkk
      rw [if_pos rfl, hkzero]
      exact ⟨by omega, fun _ => ⟨⟨h1, h2⟩, by rw [lookupV_setV_self]⟩⟩
    · rw [if_neg hkk, Nat.zero_add]
      refine ⟨(nn k).1, fun hge => ?_⟩
      obtain ⟨⟨hk1, hk2⟩, hdone⟩ := (nn k).2 hge
      rw [lookupV_setV_ne _ _ _ _ hkk] at hk1 hk2
      rw [lookupV_setV_ne _ _ _ _ hkk]
      exact ⟨⟨hk1, hk2⟩, hdone⟩

/-- The children loop preserves the walker invariant. -/
theorem kidsGo_inv (step : Str → VMap → WRes)
    (hstep : ∀ root v e tr v', step root v = some (e, tr, v') → WInv v tr v') :
    ∀ (cs : List Str) (v : VMap) (e : Option WErr) (tr : List TE) (v' : VMap),
      kidsGo step cs v = some (e, tr, v') → WInv v tr v' := by
  intro cs
  induction cs with
  | nil =>
    intro v e tr v' h
    simp only [kidsGo] at h
    rw [Option.some.injEq, Prod.mk.injEq, Prod.mk.injEq] at h
    obtain ⟨-, h2, h3⟩ := h
    rw [← h2, ← h3]
    exact WInv_refl v
  | cons c cs ih =>
    intro v e tr v' h
    simp only [kidsGo] at h
    cases hc : step c v with
    | none => rw [hc] at h; exact absurd h (by simp)
    | some res =>
      obtain ⟨e1, tr1, v1⟩ := res
      rw [hc] at h
      simp only at h
      have hinv1 := hstep c v e1 tr1 v1 hc
      by_cases hstop : shouldStopWalk e1 = true
      · rw [if_pos hstop] at h
        rw [Option.some.injEq, Prod.mk.injEq, Prod.mk.injEq] at h
        obtain ⟨-, h2, h3⟩ := h
        rw [← h2, ← h3]
        exact hinv1
      · rw [if_neg hstop] at h
        cases hk : kidsGo step cs v1 with
        | none => rw [hk] at h; exact absurd h (by simp)
        | some res2 =>
          obtain ⟨e2, tr2, v2⟩ := res2
          rw [hk] at h
          simp only at h
          rw [Option.some.injEq, Prod.mk.injEq, Prod.mk.injEq] at h
          obtain ⟨-, h2, h3⟩ := h
          rw [← h2, ← h3]
          exact WInv_comp hinv1 (ih v1 e2 tr2 v2 hk)

theorem nilCount_single_nil (key p : Str) :
    ∀ k, nilCount [⟨key, p, none⟩] k ≤ 1 ∧ (1 ≤ nilCount [⟨key, p, none⟩] k → k = key) := by
  intro k
  by_cases hk : k = key
  · subst hk
    simp [nilCount]
  · constructor
    · rw [nilCount_cons_nil, if_neg hk]
      simp [nilCount]
    · rw [nilCount_cons_nil, if_neg hk]
      simp [nilCount]

theorem nilCount_nil_err (key p p2 : Str) (w : WErr) :
    ∀ k, nilCount [⟨key, p, none⟩, ⟨key, p2, some w⟩] k ≤ 1 ∧
      (1 ≤ nilCount [⟨key, p, none⟩, ⟨key, p2, some w⟩] k → k = key) := by
  intro k
  rw [nilCount_cons_nil, nilCount_cons_some]
  by_cases hk : k = key
  · subst hk
    simp [nilCount]
  · rw [if_neg hk]
    simp [nilCount]

theorem nilCount_err_zero (key p : Str) (w : WErr) (k : Str) :
    nilCount [⟨key, p, some w⟩] k = 0 := by
  rw [nilCount_cons_some]
  simp [nilCount]

theorem nilCount_err_single (key p : Str) (w : WErr) :
    ∀ k, nilCount [⟨key, p, some w⟩] k ≤ 1 ∧ (1 ≤ nilCount [⟨key, p, some w⟩] k → k = key) := by
  intro k
  rw [nilCount_err_zero]
  simp

/-- The walker satisfies the invariant `WInv` between its input and output
visited maps and its trace. -/
theorem walk_inv (fs : FS) (fn : Cb) (follow : Bool) :
    ∀ (fuel : Nat) (root : Str) (v : VMap) (e : Option WErr) (tr : List TE) (v' : VMap),
      walkRecF fs fn follow fuel root v = some (e, tr, v') → WInv v tr v' := by
  intro fuel
  induction fuel with
  | zero =>
    intro root v e tr v' h
    simp [walkRecF] at h
  | succ fuel ih =>
    intro root v e tr v' h
    simp only [walkRecF, walkStep] at h
    split at h
    next h1 =>
      rw [Option.some.injEq, Prod.mk.injEq, Prod.mk.injEq] at h
      obtain ⟨-, h2, h3⟩ := h
      rw [← h2, ← h3]
      refine ⟨fun k hk => hk, fun k hk => hk, fun k hk => hk, fun hv => hv, fun k => ?_⟩
      rw [nilCount_err_zero]
      exact ⟨by omega, fun hge => absurd hge (by omega)⟩
    next h1 =>
      split at h
      next h2 =>
        rw [Option.some.injEq, Prod.mk.injEq, Prod.mk.injEq] at h
        obtain ⟨-, hb, hc⟩ := h
        rw [← hb, ← hc]
        exact WInv_refl v
      next h2 =>
        split at h
        next e0 tr0 heq =>
          rw [Option.some.injEq, Prod.mk.injEq, Prod.mk.injEq] at h
          obtain ⟨-, hb, hc⟩ := h
          rw [← hb, ← hc]
          refine WInv_markDone v (toAbs fs root) tr0 h1 h2 ?_
          split at heq
          next hfl =>
            split at heq
            next hres =>
              rw [Except.error.injEq, Prod.mk.injEq] at heq
              rw [← heq.2]
              exact nilCount_err_single _ _ _
            next target hres =>
              split at heq
              next hrel =>
                rw [Except.error.injEq, Prod.mk.injEq] at heq
                rw [← heq.2]
                exact nilCount_err_single _ _ _
              next hrel => simp at heq
          next hfl => simp at heq
        next root2 heq =>
          split at h
          next hstop =>
            rw [Option.some.injEq, Prod.mk.injEq, Prod.mk.injEq] at h
            obtain ⟨-, hb, hc⟩ := h
            rw [← hb, ← hc]
            exact WInv_markDone v (toAbs fs root) _ h1 h2 (nilCount_single_nil _ _)
          next hstop =>
            split at h
            next hdir =>
              rw [Option.some.injEq, Prod.mk.injEq, Prod.mk.injEq] at h
              obtain ⟨-, hb, hc⟩ := h
              rw [← hb, ← hc]
              exact WInv_markDone v (toAbs fs root) _ h1 h2 (nilCount_single_nil _ _)
            next hdir =>
              split at h
              next hskip =>
                rw [Option.some.injEq, Prod.mk.injEq, Prod.mk.injEq] at h
                obtain ⟨-, hb, hc⟩ := h
                rw [← hb, ← hc]
                exact WInv_markDone v (toAbs fs root) _ h1 h2 (nilCount_single_nil _ _)
              next hskip =>
                split at h
                next hrd =>
                  rw [Option.some.injEq, Prod.mk.injEq, Prod.mk.injEq] at h
                  obtain ⟨-, hb, hc⟩ := h
                  rw [← hb, ← hc]
                  exact WInv_markDone v (toAbs fs root) _ h1 h2 (nilCount_nil_err _ _ _ _)
                next children hrd =>
                  split at h
                  next hkids => exact absurd h (by simp)
                  next e2 trK v2 hkids =>
                    rw [Option.some.injEq, Prod.mk.injEq, Prod.mk.injEq] at h
                    obtain ⟨-, hb, hc⟩ := h
                    rw [← hb, ← hc]
                    refine WInv_withKids v (toAbs fs root) root2 trK v2 h1 h2 ?_
                    exact kidsGo_inv _ (fun r vv ee ttr vv' hs => ih r vv ee ttr vv' hs)
                      children _ e2 trK v2 hkids

theorem isLinkFS_mem (fs : FS) (p : Str) (h : isLinkFS fs p = true) :
    ∃ e ∈ fs.entries, e.1 = toAbs fs p := by
  simp only [isLinkFS] at h
  cases hl : lookupFS fs (toAbs fs p) with
  | none => rw [hl] at h; simp at h
  | some n =>
    cases n with
    | link t => exact lookupFS_mem_keys fs _ _ hl
    | dir cs => rw [hl] at h; simp at h
    | file => rw [hl] at h; simp at h

theorem isDirFS_mem (fs : FS) (p : Str) (h : isDirFS fs p = true) :
    ∃ e ∈ fs.entries, e.1 = toAbs fs p := by
  simp only [isDirFS] at h
  cases hl : lookupFS fs (toAbs fs p) with
  | none => rw [hl] at h; simp at h
  | some n =>
    cases n with
    | dir cs => exact lookupFS_mem_keys fs _ _ hl
    | link t => rw [hl] at h; simp at h
    | file => rw [hl] at h; simp at h

/-- The children loop cannot run out of fuel when its step cannot. -/
theorem kidsGo_total (fs : FS) (step : Str → VMap → WRes) (B : Nat)
    (hInv : ∀ root v e tr v', step root v = some (e, tr, v') → WInv v tr v')
    (hTot : ∀ root v, VOK v → muFS fs v + 1 ≤ B → step root v ≠ none) :
    ∀ (cs : List Str) (v : VMap), VOK v → muFS fs v + 1 ≤ B →
      kidsGo step cs v ≠ none := by
  intro cs
  induction cs with
  | nil =>
    intro v hv hmu
    simp [kidsGo]
  | cons c cs ih =>
    intro v hv hmu
    simp only [kidsGo]
    cases hc : step c v with
    | none => exact absurd hc (hTot c v hv hmu)
    | some res =>
      obtain ⟨e1, tr1, v1⟩ := res
      simp only
      have hinv := hInv c v e1 tr1 v1 hc
      have hv1 : VOK v1 := hinv.2.2.2.1 hv
      have hmu1 : muFS fs v1 ≤ muFS fs v := muFS_mono fs v v1 hinv.1
      by_cases hstop : shouldStopWalk e1 = true
      · rw [if_pos hstop]
        simp
      · rw [if_neg hstop]
        cases hk : kidsGo step cs v1 with
        | none => exact absurd hk (ih v1 hv1 (by omega))
        | some res2 =>
          obtain ⟨e2, tr2, v2⟩ := res2
          simp

/-- The walker completes (does not exhaust its fuel) whenever the fuel
exceeds the number of unmarked filesystem keys — for every finite
filesystem, including ones with symbolic-link cycles. -/
theorem walk_total (fs : FS) (fn : Cb) (follow : Bool) :
    ∀ (fuel : Nat) (root : Str) (v : VMap), VOK v → muFS fs v + 1 ≤ fuel →
      walkRecF fs fn follow fuel root v ≠ none := by
  intro fuel
  induction fuel with
  | zero =>
    intro root v hv hmu
    exact absurd hmu (by omega)
  | succ fuel ih =>
    intro root v hv hmu
    simp only [walkRecF, walkStep]
    split
    next h1 => simp
    next h1 =>
      split
      next h2 => simp
      next h2 =>
        have h0 : lookupV v (toAbs fs root) = 0 := by
          have := hv (toAbs fs root)
          omega
        split
        next e0 tr0 heq => simp
        next root2 heq =>
          split
          next hstop => simp
          next hstop =>
            split
            next hdir => simp
            next hdir =>
              split
              next hskip => simp
              next hskip =>
                split
                next hrd => simp
                next children hrd =>
                  have hmem : ∃ e ∈ fs.entries, e.1 = toAbs fs root := by
                    by_cases hfl : (follow = true ∧ isLinkFS fs root = true)
                    · exact isLinkFS_mem fs root hfl.2
                    · rw [if_neg hfl] at heq
                      rw [Except.ok.injEq] at heq
                      rw [← heq] at hdir
                      have hdir2 : isDirFS fs root = true := by
                        by_contra hc
                        exact hdir (by simpa using hc)
                      exact isDirFS_mem fs root hdir2
                  have hlt := muFS_set_lt fs v (toAbs fs root) h0 hmem
                  have hv1 : VOK (setV v (toAbs fs root) 1) :=
                    VOK_setV _ _ _ (by omega) hv
                  have hkne := kidsGo_total fs (walkRecF fs fn follow fuel) fuel
                    (fun r vv e tr v' hs => walk_inv fs fn follow fuel r vv e tr v' hs)
                    (fun r vv hvv hmuv => ih r vv hvv hmuv)
                    children (setV v (toAbs fs root) 1) hv1 (by omega)
                  cases hk : kidsGo (walkRecF fs fn follow fuel) children
                      (setV v (toAbs fs root) 1) with
                  | none => exact absurd hk hkne
                  | some res2 =>
                    obtain ⟨e2, tr2, v2⟩ := res2
                    simp

/-! ## Validation against the behavior of the Go originals
(the repository test tables and Go `path/filepath` fixtures) -/

example : goClean (str "") = str "." := by decide
example : goClean (str "abc") = str "abc" := by decide
example : goClean (str "a//b") = str "a\\b" := by decide
example : goClean (str "./a//b\\.") = str "a\\b" := by decide
example : goClean (str "a/../b") = str "b" := by decide
example : goClean (str "../b") = str "..\\b" := by decide
example : goClean (str "c:") = str "c:." := by decide
example : goClean (str "c:.") = str "c:." := by decide
example : goClean (str "c:/") = str "c:\\" := by decide
example : goClean (str "c:/foo/") = str "c:\\foo" := by decide
example : goClean (str "//server/share") = str "\\\\server\\share" := by decide
example : goClean (str "//server/share/") = str "\\\\server\\share\\" := by decide
example : goClean (str "//foo/bar/file/") = str "\\\\foo\\bar\\file" := by decide
example : goClean (str "/") = str "\\" := by decide
example : goClean (str "/a") = str "\\a" := by decide
example : goClean (str "a/../c:") = str ".\\c:" := by decide
example : goClean (str "a/../c:/b") = str ".\\c:\\b" := by decide
example : goClean (str "c:\\foo\\..") = str "c:\\" := by decide
example : goClean (str "c:..") = str "c:.." := by decide
example : goClean (str "c:/hello/../hi") = str "c:\\hi" := by decide
example : goJoin2 (str "a") (str "b") = str "a\\b" := by decide
example : goJoin2 (str "c:") (str "y") = str "c:y" := by decide
example : goJoin2 (str "c:\\") (str "..") = str "c:\\" := by decide
example : goJoin2 (str "a\\b") (str "c") = str "a\\b\\c" := by decide
example : goJoin2 (str "bar") (str "..") = str "." := by decide
example : goJoin2 (str "c:x") (str "..") = str "c:." := by decide
example : goJoin2 (str "c:foo\\bar") (str "abc") = str "c:foo\\bar\\abc" := by decide
example : goJoin2 (str ".") (str "a\\b") = str "a\\b" := by decide
example : goJoin2 (str "a\\b") (str ".") = str "a\\b" := by decide
example : goIsAbs (str "c:/foo") = true := by decide
example : goIsAbs (str "c:foo") = false := by decide
example : goIsAbs (str "//s/sh") = true := by decide
example : goIsAbs (str "/foo") = false := by decide
example : goIsAbs (str "c:") = false := by decide
example : goMatch (str "*.txt") (str "baz.txt") = true := by decide
example : goMatch (str "*.txt") (str "baz.md") = false := by decide
example : goMatch (str "?ar") (str "bar") = true := by decide
example : goMatch (str "[a-c]x") (str "bx") = true := by decide
example : goMatch (str "[^a-c]x") (str "dx") = true := by decide
example : goMatch (str "[^a-c]x") (str "bx") = false := by decide
example : goMatch (str "*") (str "") = true := by decide
example : goMatch (str "ab") (str "ab") = true := by decide
example : goMatch (str "ab") (str "abc") = false := by decide
example : goMatch (str "a*b") (str "a-x-b") = true := by decide
example : goMatch (str "a*b*c") (str "aXbYc") = true := by decide
example : goMatch (str "*.*") (str "bar.txt") = true := by decide
example : goMatch (str "c:") (str "c:") = true := by decide

example : ntClean (str "c:") = str "c:" := by decide
example : ntClean (str "c:.") = str "c:" := by decide
example : ntClean (str "c:..") = str "c:." := by decide
example : ntClean (str "//server/share") = str "\\\\server\\share\\" := by decide
example : ntClean (str "//server/share/") = str "\\\\server\\share\\" := by decide
example : ntClean (str "./a//b\\.") = str "a\\b" := by decide
example : ntClean (str "") = str "." := by decide
example : ntParts (str "") = [str "."] := by decide
example : ntParts (str ".") = [] := by decide
example : ntParts (str "c:/foo") = [str "c:\\", str "foo"] := by decide
example : ntParts (str "//resource/share") = [str "\\\\resource\\share\\"] := by decide
example : ntParts (str "c:/") = [str "c:\\"] := by decide
example : ntParts (str "/") = [str "\\"] := by decide
example : ntParts (str "/a") = [str "\\", str "a"] := by decide
example : ntParts (str "//resource/share/path") = [str "\\\\resource\\share\\", str "path"] := by decide
example : ntParts (str "c:foo/bar/") = [str "c:", str "foo", str "bar"] := by decide
example : ntParts (str "/foo/bar/") = [str "\\", str "foo", str "bar"] := by decide
example : ntParts (str "foo/bar/") = [str "foo", str "bar"] := by decide
example : ntDrive (str "c:/foo/bar") = str "c:" := by decide
example : ntDrive (str "c:foo/bar") = str "c:" := by decide
example : ntDrive (str "//server/share/file") = str "\\\\server\\share" := by decide
example : ntDrive (str "//server/share/") = str "\\\\server\\share" := by decide
example : ntDrive (str "/foo/bar") = str "" := by decide
example : ntDrive (str "foo/bar") = str "" := by decide
example : ntDrive (str "") = str "" := by decide
example : ntRoot (str "c:/foo/bar") = str "\\" := by decide
example : ntRoot (str "c:foo/bar") = str "" := by decide
example : ntRoot (str "//server/share/file") = str "\\" := by decide
example : ntRoot (str "//server/share") = str "\\" := by decide
example : ntRoot (str "/foo/bar") = str "\\" := by decide
example : ntRoot (str "foo/bar") = str "" := by decide
example : ntAnchor (str "c:/foo/bar") = str "c:\\" := by decide
example : ntAnchor (str "c:foo/bar") = str "c:" := by decide
example : ntAnchor (str "//server/share/file") = str "\\\\server\\share\\" := by decide
example : ntAnchor (str "/foo/bar") = str "\\" := by decide
example : ntAnchor (str "foo/bar") = str "" := by decide
example : validateName (str "CON") = some .invalidName := by decide
example : validateName (str "con") = some .invalidName := by decide
example : validateName (str "abc") = none := by decide
example : validateName (str "ab.") = some .invalidName := by decide
example : validateName (str "ab ") = some .invalidName := by decide
example : validateName (str "a\tb") = none := by decide
example : validateName (str "a:b") = some .invalidName := by decide
example : validateName (str "") = some .noName := by decide
example : validateName (str "..") = some .invalidName := by decide
example : validateAnchor (str "//server/share/") = none := by decide
example : validateAnchor (str "//server/share") = some .invalidAnchor := by decide
example : validateAnchor (str "c:") = none := by decide
example : validateAnchor (str "c:/") = none := by decide
example : validateAnchor (str "/") = none := by decide
example : validateAnchor (str "") = none := by decide
example : toValidName (str "bar\rtxt") = str "bar txt" := by decide
example : toValidName (str "bar\t") = str "bar" := by decide
example : toValidName (str "bar:txt") = str "bar_txt" := by decide
example : toValidName (str "bar?txt") = str "bar_txt" := by decide
example : toValidName (str "CON") = str "CON_" := by decide
example : toValidName (str "...") = str "_" := by decide
example : toValidName (str "") = str "_" := by decide
example : ntMatch (str "c:/**/*.txt") (str "c:/foo/bar/baz.txt") = true := by decide
example : ntMatch (str "c:/*.txt") (str "c:/foo/bar.txt") = false := by decide
example : ntMatch (str "c:/foo/*.txt") (str "c:/foo/bar.txt") = true := by decide
example : ntMatch (str "c:/**") (str "c:/foo/bar.txt") = true := by decide
example : validatePath (str "c:/foo/bar.txt") = none := by decide
example : validatePath (str "c:/foo/invalid:name.txt") = some .invalidName := by decide
example : validatePath (str "c:/foo/bar/con") = some .invalidName := by decide
example : validatePath (str "//server/share/") = none := by decide

-- TestNewPureWindowsPath
example : newPWP [str "c:/Windows", str "d:bar"] = str "d:bar" := by decide
example : newPWP [str "c:/Windows", str "c:/Program Files"] = str "c:\\Program Files" := by decide
example : newPWP [str "a/b", str "//server/share/file"] = str "\\\\server\\share\\file" := by decide
example : newPWP [str "c:/hello", str "/hi/abc"] = str "c:\\hi\\abc" := by decide
example : newPWP [str "c:foo/bar", str "c:abc"] = str "c:foo\\bar\\abc" := by decide
example : newPWP [] = str "." := by decide
example : newPWP [str ""] = str "." := by decide
example : newPWP [str "a/./b"] = str "a\\b" := by decide
example : newPWP [str "c:."] = str "c:" := by decide
example : newPWP [str "a/../b"] = str "b" := by decide
example : newPWP [str "a", str "../b"] = str "b" := by decide
example : newPWP [str "../b"] = str "..\\b" := by decide
example : newPWP [str "./a//b\\."] = str "a\\b" := by decide
example : newPWP [str "./a\\\\b/"] = str "a\\b" := by decide
example : newPWP [str "c:/foo/"] = str "c:\\foo" := by decide
example : newPWP [str "foo/bar/"] = str "foo\\bar" := by decide
example : newPWP [str "//foo/bar/file/"] = str "\\\\foo\\bar\\file" := by decide
example : newPWP [str "c:/"] = str "c:\\" := by decide
example : newPWP [str "c:"] = str "c:" := by decide
example : newPWP [str "//server/share/"] = str "\\\\server\\share\\" := by decide
example : newPWP [str "//server/share"] = str "\\\\server\\share\\" := by decide
-- Parent
example : pParent (newPWP [str "c:/foo/bar"]) = str "c:\\foo" := by decide
example : pParent (newPWP [str "c:foo/bar"]) = str "c:foo" := by decide
example : pParent (newPWP [str "//server/share/file"]) = str "\\\\server\\share\\" := by decide
example : pParent (newPWP [str "//server/share/"]) = str "\\\\server\\share\\" := by decide
example : pParent (newPWP [str "/foo/bar"]) = str "\\foo" := by decide
example : pParent (newPWP [str "foo/bar"]) = str "foo" := by decide
example : pParent (newPWP [str "./file/newdir/newfile.md"]) = str "file\\newdir" := by decide
example : pParent (newPWP [str ""]) = str "." := by decide
example : pParent (newPWP [str "."]) = str "." := by decide
example : pParent (newPWP [str "a"]) = str "." := by decide
-- Name
example : pName (newPWP [str "c:/foo/bar"]) = str "bar" := by decide
example : pName (newPWP [str "c:"]) = str "" := by decide
example : pName (newPWP [str "c:/"]) = str "" := by decide
example : pName (newPWP [str "//server/share/"]) = str "" := by decide
example : pName (newPWP [str "/foo/"]) = str "foo" := by decide
example : pName (newPWP [str "."]) = str "" := by decide
example : pName (newPWP [str "a"]) = str "a" := by decide
-- Suffix/Suffixes/Stem
example : pSuffix (newPWP [str "c:/foo/bar.out.txt"]) = str ".txt" := by decide
example : pSuffix (newPWP [str "c:/foo/bar"]) = str "" := by decide
example : pSuffixes (newPWP [str "c:/foo/bar.out.txt"]) = [str ".out", str ".txt"] := by decide
example : pSuffixes (newPWP [str "//server/share/file"]) = [] := by decide
example : pStem (newPWP [str "c:/foo/bar.out.txt"]) = str "bar.out" := by decide
example : pStem (newPWP [str "c:foo/bar.txt"]) = str "bar" := by decide
example : pStem (newPWP [str ""]) = str "" := by decide
-- IsAbs
example : pIsAbs (newPWP [str "c:/foo/bar"]) = true := by decide
example : pIsAbs (newPWP [str "c:foo/bar"]) = false := by decide
example : pIsAbs (newPWP [str "//server/share/"]) = true := by decide
example : pIsAbs (newPWP [str "/foo/bar"]) = false := by decide
-- IsRelTo (default walkUp=true)
example : isRelTo (newPWP [str "c:/foo/bar"]) (newPWP [str "c:"]) true = false := by decide
example : isRelTo (newPWP [str "c:foo/bar"]) (newPWP [str "c:/"]) true = false := by decide
example : isRelTo (newPWP [str "//server/share/file"]) (newPWP [str "//Server/Share"]) true = true := by decide
example : isRelTo (newPWP [str "//server/share/"]) (newPWP [str "//server/share"]) true = true := by decide
example : isRelTo (newPWP [str "/foo/bar"]) (newPWP [str "/FOO"]) true = true := by decide
example : isRelTo (newPWP [str "/foo/bar"]) (newPWP [str "/"]) true = true := by decide
example : isRelTo (newPWP [str "foo/bar"]) (newPWP [str "FOO"]) true = true := by decide
example : isRelTo (newPWP [str "a"]) (newPWP [str "."]) true = true := by decide
example : isRelTo (newPWP [str ""]) (newPWP [str "."]) true = true := by decide
-- Join
example : pJoin (newPWP [str "c:/foo"]) [str "c:bar"] = str "c:\\foo\\bar" := by decide
example : pJoin (newPWP [str "c:foo"]) [str "c:bar"] = str "c:foo\\bar" := by decide
example : pJoin (newPWP [str "d:/Windows"]) [str "c:/"] = str "c:\\" := by decide
example : pJoin (newPWP [str "d:/Windows"]) [str "c:"] = str "c:" := by decide
example : pJoin (newPWP [str "c:/"]) [str "//a/b/c"] = str "\\\\a\\b\\c" := by decide
example : pJoin (newPWP [str "a/b"]) [str "c"] = str "a\\b\\c" := by decide
example : pJoin (newPWP [str "."]) [str "a/b"] = str "a\\b" := by decide
example : pJoin (newPWP [str "a/b"]) [str "."] = str "a\\b" := by decide
example : pJoin (newPWP [str ""]) [str "."] = str "." := by decide
example : pJoin (newPWP [str "c:"]) [str ""] = str "c:" := by decide
-- FullMatch
example : fullMatch (newPWP [str "//foo/bar/file.txt"]) (str "/a/foo/bar/*.txt") false = false := by decide
example : fullMatch (newPWP [str "//foo/bar/file.txt"]) (str "//**/*.txt") false = false := by decide
example : fullMatch (newPWP [str "c:/foo/bar.txt"]) (str "c:/foo/bar.txt") false = true := by decide
example : fullMatch (newPWP [str "c:/foo/bar.txt"]) (str "C:/FOO/BAR.TXT") false = true := by decide
example : fullMatch (newPWP [str "c:/foo/bar.txt"]) (str "C:/FOO/BAR.TXT") true = false := by decide
example : fullMatch (newPWP [str "c:/foo/bar.txt"]) (str "c:/foo/baz.txt") false = false := by decide
example : fullMatch (newPWP [str "c:/foo/bar/baz.txt"]) (str "c:/**/*.txt") false = true := by decide
example : fullMatch (newPWP [str "c:/foo/bar.txt"]) (str "c:/foo/*.txt") false = true := by decide
example : fullMatch (newPWP [str "c:/foo/bar.txt"]) (str "c:/foo/*.*") false = true := by decide
example : fullMatch (newPWP [str "c:/foo/bar.txt"]) (str "c:/**") false = true := by decide
example : fullMatch (newPWP [str "foo"]) (str "./foo") false = true := by decide
example : fullMatch (newPWP [str "foo/bar"]) (str "bar") false = false := by decide
-- Match
example : pMatch (newPWP [str "c:/foo/bar.txt"]) (str "bar.txt") false = true := by decide
example : pMatch (newPWP [str "c:foo/bar.txt"]) (str "BAR.TXT") false = true := by decide
example : pMatch (newPWP [str "c:foo/bar"]) (str "c:bar") false = false := by decide
example : pMatch (newPWP [str "c:/foo/bar"]) (str "c:bar") false = false := by decide
example : pMatch (newPWP [str "/foo/bar"]) (str "./bar") false = true := by decide
example : pMatch (newPWP [str "/foo/bar"]) (str "a/../bar") false = true := by decide
example : pMatch (newPWP [str "/foo/bar"]) (str ".") false = true := by decide
example : pMatch (newPWP [str "/foo/BAR"]) (str "bar") true = false := by decide
-- WithSuffix
example : withSuffix (newPWP [str "c:/foo/bar.txt"]) (str ".md") = .ok (str "c:\\foo\\bar.md") := by decide
example : withSuffix (newPWP [str "c:foo/bar.txt"]) (str ".md") = .ok (str "c:foo\\bar.md") := by decide
example : withSuffix (newPWP [str "/foo/bar"]) (str ".js") = .ok (str "\\foo\\bar.js") := by decide
example : withSuffix (newPWP [str "foo/bar.ts"]) (str ".js") = .ok (str "foo\\bar.js") := by decide
example : withSuffix (newPWP [str "foo/bar.out.ts"]) (str ".ts") = .ok (str "foo\\bar.out.ts") := by decide
example : withSuffix (newPWP [str "foo/bar"]) (str "js") = .error .invalidSuffix := by decide
example : withSuffix (newPWP [str "/"]) (str ".js") = .error .noName := by decide
example : withSuffix (newPWP [str "/abc"]) (str ".j:s") = .error .invalidName := by decide
-- WithStem
example : withStem (newPWP [str "c:/foo/bar.txt"]) (str "baz") = .ok (str "c:\\foo\\baz.txt") := by decide
example : withStem (newPWP [str "foo/bar.out.ts"]) (str "baz") = .ok (str "foo\\baz.ts") := by decide
example : withStem (newPWP [str "/"]) (str "bar.js") = .error .noName := by decide
example : withStem (newPWP [str "/abc"]) (str "b/ar.js") = .error .invalidName := by decide
-- WithName
example : withName (newPWP [str "c:/foo/bar.txt"]) (str "baz.txt") = .ok (str "c:\\foo\\baz.txt") := by decide
example : withName (newPWP [str "foo/bar.out.ts"]) (str "baz.ts") = .ok (str "foo\\baz.ts") := by decide
example : withName (newPWP [str "/"]) (str "bar.js") = .error .noName := by decide
example : withName (newPWP [str "/abc"]) (str "b/ar.js") = .error .invalidName := by decide
-- RelTo
example : relTo (newPWP [str "c:/foo/bar.txt"]) (newPWP [str "c:/foo"]) false = .ok (str "bar.txt") := by decide
example : relTo (newPWP [str "c:foo/bar.txt"]) (newPWP [str "c:foo"]) false = .ok (str "bar.txt") := by decide
example : relTo (newPWP [str "//server/share/file.txt"]) (newPWP [str "//server/share"]) false = .ok (str "file.txt") := by decide
example : relTo (newPWP [str "/a/b"]) (newPWP [str "/"]) false = .ok (str "a\\b") := by decide
example : relTo (newPWP [str "a/b"]) (newPWP [str "."]) false = .ok (str "a\\b") := by decide
example : relTo (newPWP [str "/a/b"]) (newPWP [str ""]) false = .err .notRelative := by decide
example : relTo (newPWP [str "a/b"]) (newPWP [str "c"]) true = .err .notRelative := by decide
example : relTo (newPWP [str "/a/b"]) (newPWP [str "/c"]) true = .ok (str "..\\a\\b") := by decide
example : relTo (newPWP [str "c:/foo/bar.txt"]) (newPWP [str "c:/a/b"]) true = .ok (str "..\\..\\foo\\bar.txt") := by decide
-- the panic case
example : relTo (newPWP [str "c:/"]) (newPWP [str "c:/a"]) true = .oobCrash := by decide
-- WithAnchor
example : withAnchor (newPWP [str "c:/foo/bar.txt"]) (str "d:/") = .ok (str "d:\\foo\\bar.txt") := by decide
example : withAnchor (newPWP [str "c:/foo/bar.txt"]) (str "c:") = .ok (str "c:foo\\bar.txt") := by decide
example : withAnchor (newPWP [str "c:/foo/bar.txt"]) (str "/") = .ok (str "\\foo\\bar.txt") := by decide
example : withAnchor (newPWP [str "c:/foo/bar.txt"]) (str "") = .ok (str "foo\\bar.txt") := by decide
example : withAnchor (newPWP [str "c:/foo/bar.txt"]) (str "//server/share/") = .ok (str "\\\\server\\share\\foo\\bar.txt") := by decide
example : withAnchor (newPWP [str "c:/foo/bar.txt"]) (str "//server/share") = .error .invalidAnchor := by decide
-- ToValid
example : toValidP (newPWP [str "c:/foo/bar\rtxt"]) = str "c:\\foo\\bar txt" := by decide
example : toValidP (newPWP [str "c:/foo/bar\t"]) = str "c:\\foo\\bar" := by decide
example : toValidP (newPWP [str "c:/foo/bar:txt"]) = str "c:\\foo\\bar_txt" := by decide
-- WithParent
example : withParent (newPWP [str "c:/foo/bar"]) (newPWP [str "c:/foo/baz"]) = .ok (str "c:\\foo\\baz\\bar") := by decide
example : withParent (newPWP [str "./a/b"]) (newPWP [str "/"]) = .ok (str "\\b") := by decide

/-- Truncation stage of `ToValidName` (`if len(name) > 255`). -/
def tvTrunc (n : Str) : Str := if n.length > 255 then n.take 255 else n

/-- Invalid-character replacement stage of `ToValidName`. -/
def tvMapInv (n : Str) : Str :=
  n.map (fun c => if containsChar c InvalidChars then '_' else c)

/-- Trailing `[\s.]+$` strip stage of `ToValidName`. -/
def tvStrip (n : Str) : Str :=
  (n.reverse.dropWhile (fun c => isSpaceGo c ∨ c = '.')).reverse

/-- Newline replacement stage of `ToValidName`. -/
def tvMapNL (n : Str) : Str :=
  n.map (fun c => if c = '\n' then ' ' else if c = '\r' then ' ' else c)

/-- Reserved-name `_`-append stage of `ToValidName`. -/
def tvReserve (n : Str) : Str :=
  if ReservedNames.any (fun r => equalFold n r) then n ++ ['_'] else n

/-- Empty-result fallback stage of `ToValidName`. -/
def tvFinal (n : Str) : Str := if n.length = 0 then str "_" else n

theorem toValidName_stages (n : Str) :
    toValidName n = if n.length = 0 then str "_"
      else tvFinal (tvReserve (tvMapNL (tvStrip (tvMapInv (tvTrunc n))))) := rfl

theorem equalFold_length (a b : Str) (h : equalFold a b = true) :
    a.length = b.length := by
  simp only [equalFold, lowerStr, decide_eq_true_eq] at h
  have h2 := congrArg List.length h
  simpa using h2

theorem validateName_none_of (r : Str)
    (h0 : r ≠ [])
    (h1 : r.length ≤ 255)
    (h2 : r.getLastD ' ' ≠ '.')
    (h3 : isSpaceGo (r.getLastD '.') = false)
    (h4 : ∀ c ∈ r, c ≠ '\n' ∧ c ≠ '\r')
    (h5 : ∀ c ∈ r, containsChar c InvalidChars = false)
    (h6 : ∀ rsv ∈ ReservedNames, equalFold r rsv = false) :
    validateName r = none := by
  have hlen0 : ¬ r.length = 0 := by
    simp only [List.length_eq_zero]
    exact h0
  have hnl : ¬ (r.any (fun c => c = '\n' ∨ c = '\r')) = true := by
    simp only [List.any_eq_true, decide_eq_true_eq]
    rintro ⟨c, hc, hcc⟩
    rcases hcc with h | h
    · exact (h4 c hc).1 h
    · exact (h4 c hc).2 h
  have hinv : ¬ (InvalidChars.any (fun c => containsChar c r)) = true := by
    simp only [List.any_eq_true]
    rintro ⟨c, hcmem, hcont⟩
    simp only [containsChar, List.any_eq_true, decide_eq_true_eq] at hcont
    obtain ⟨d, hdr, hdc⟩ := hcont
    have htrue : containsChar d InvalidChars = true := by
      simp only [containsChar, List.any_eq_true, decide_eq_true_eq]
      exact ⟨c, hcmem, hdc.symm⟩
    rw [h5 d hdr] at htrue
    exact Bool.false_ne_true htrue
  have hres : ¬ (ReservedNames.any (fun rsv => equalFold r rsv)) = true := by
    simp only [List.any_eq_true]
    rintro ⟨rsv, hmem, heq⟩
    rw [h6 rsv hmem] at heq
    exact Bool.false_ne_true heq
  rw [validateName, if_neg hlen0, if_neg (by omega), if_neg h2,
    if_neg (by rw [h3]; simp), if_neg hnl, if_neg hinv, if_neg hres]

theorem tvTrunc_len (n : Str) : (tvTrunc n).length ≤ 255 := by
  rw [tvTrunc]
  split
  next h => rw [List.length_take]; omega
  next h => omega

theorem tvMapInv_len (n : Str) : (tvMapInv n).length = n.length := by
  simp [tvMapInv]

theorem tvMapInv_chars (n : Str) :
    ∀ c ∈ tvMapInv n, containsChar c InvalidChars = false := by
  intro c hc
  rw [tvMapInv, List.mem_map] at hc
  obtain ⟨a, ha, hfa⟩ := hc
  rw [← hfa]
  by_cases h : containsChar a InvalidChars = true
  · rw [if_pos h]
    decide
  · rw [if_neg h]
    simpa using h

theorem tvStrip_len (n : Str) : (tvStrip n).length ≤ n.length := by
  rw [tvStrip, List.length_reverse]
  exact le_trans (dropWhile_length_le _ _) (by rw [List.length_reverse])

theorem tvStrip_subset (n : Str) : ∀ c ∈ tvStrip n, c ∈ n := by
  intro c hc
  rw [tvStrip, List.mem_reverse] at hc
  exact List.mem_reverse.mp ((List.dropWhile_sublist _).subset hc)

theorem tvStrip_last (n : Str) (c : Char) (h : (tvStrip n).getLast? = some c) :
    isSpaceGo c = false ∧ c ≠ '.' := by
  rw [tvStrip, List.getLast?_reverse] at h
  cases hd : n.reverse.dropWhile (fun c => isSpaceGo c ∨ c = '.') with
  | nil => rw [hd] at h; simp at h
  | cons a as =>
    rw [hd] at h
    simp only [List.head?, Option.some.injEq] at h
    have hq := dropWhile_head_not _ _ a as hd
    rw [decide_eq_false_iff_not] at hq
    push_neg at hq
    rw [← h]
    exact ⟨by simpa using hq.1, hq.2⟩

theorem tvMapNL_len (n : Str) : (tvMapNL n).length = n.length := by
  simp [tvMapNL]

theorem tvMapNL_chars (n : Str) :
    ∀ c ∈ tvMapNL n, c ≠ '\n' ∧ c ≠ '\r' ∧ (c = ' ' ∨ c ∈ n) := by
  intro c hc
  rw [tvMapNL, List.mem_map] at hc
  obtain ⟨a, ha, hfa⟩ := hc
  by_cases h1 : a = '\n'
  · rw [if_pos h1] at hfa
    rw [← hfa]
    exact ⟨by decide, by decide, .inl rfl⟩
  · rw [if_neg h1] at hfa
    by_cases h2 : a = '\r'
    · rw [if_pos h2] at hfa
      rw [← hfa]
      exact ⟨by decide, by decide, .inl rfl⟩
    · rw [if_neg h2] at hfa
      rw [← hfa]
      exact ⟨h1, h2, .inr ha⟩

theorem reserved_len_le : ∀ rsv ∈ ReservedNames, rsv.length ≤ 4 := by decide

theorem reserved_last_ne :
    ∀ rsv ∈ ReservedNames, (rsv.map toLowerA).getLast? ≠ some (toLowerA '_') := by
  decide

theorem append_underscore_not_reserved (n : Str) :
    ∀ rsv ∈ ReservedNames, equalFold (n ++ ['_']) rsv = false := by
  intro rsv hmem
  by_contra h
  have h' : equalFold (n ++ ['_']) rsv = true := by simpa using h
  simp only [equalFold, lowerStr, decide_eq_true_eq] at h'
  have hlast := congrArg List.getLast? h'
  rw [List.map_append, List.map_cons, List.map_nil, List.getLast?_concat] at hlast
  exact reserved_last_ne rsv hmem hlast.symm

theorem reserved_any_length (n : Str)
    (h : ReservedNames.any (fun r => equalFold n r) = true) : n.length ≤ 4 := by
  rw [List.any_eq_true] at h
  obtain ⟨rsv, hmem, heq⟩ := h
  rw [equalFold_length n rsv heq]
  exact reserved_len_le rsv hmem

theorem tvReserve_cases (n : Str) :
    (ReservedNames.any (fun r => equalFold n r) = true ∧ tvReserve n = n ++ ['_']) ∨
    (ReservedNames.any (fun r => equalFold n r) = false ∧ tvReserve n = n) := by
  rw [tvReserve]
  by_cases h : ReservedNames.any (fun r => equalFold n r) = true
  · exact .inl ⟨h, if_pos h⟩
  · exact .inr ⟨by simpa using h, if_neg h⟩

/-! ## Claim C1 (Walk: termination and cycle handling) -/

/-- A directory `d:\b` containing a symbolic link `a` that points back to
`d:\b` itself (an ancestor of the link) and an ordinary file `z`: a
filesystem with a symbolic-link cycle. -/
def cycFS : FS :=
  ⟨str "d:\\w",
   [(str "d:\\b", .dir [str "a", str "z"]),
    (str "d:\\b\\a", .link (str "d:\\b")),
    (str "d:\\b\\z", .file)]⟩

/-- A callback that never signals anything. -/
def cbNone : Cb := fun _ _ => none

/-- A callback that signals stop exactly on a `WalkCycle` condition. -/
def cbStop : Cb := fun _ c => if c = some WErr.walkCycle then some .walkStop else none

/-- C1: (1) `Walk` terminates on every finite filesystem — with the fuel
`|entries| + 1` used by `walkFS` the walker never exhausts its fuel, for
every filesystem (including ones with symbolic-link cycles), callback,
root and `follow` mode; (2) reaching a node whose absolute key is marked
IN_PROGRESS invokes the callback with a `WalkCycle` condition for that
node and does not descend (the visited map is unchanged); (3) with
link-following enabled, a symbolic link whose one-level-resolved target
is an ancestor of the link's own absolute form (`IsRelTo` with
`walkUp = false`) likewise reports `WalkCycle` for that node and does not
descend, only marking the node itself DONE; (4) on the concrete cyclic
filesystem `cycFS`, the walk with a non-stopping callback reports the
cycle at `d:\b\a` and still continues to the sibling `d:\b\z`, while a
callback that signals stop on the cycle aborts the walk before `d:\b\z`. -/
theorem C1_walk_cycles :
    (∀ (fs : FS) (fn : Cb) (follow : Bool) (root : Str),
      walkFS fs fn follow root ≠ none) ∧
    (∀ (fs : FS) (fn : Cb) (follow : Bool) (fuel : Nat) (root : Str) (v : VMap),
      lookupV v (toAbs fs root) = 1 →
      walkRecF fs fn follow (fuel + 1) root v =
        some (fn (toAbs fs root) (some .walkCycle),
          [⟨toAbs fs root, toAbs fs root, some .walkCycle⟩], v)) ∧
    (∀ (fs : FS) (fn : Cb) (fuel : Nat) (root : Str) (v : VMap) (target : Str),
      lookupV v (toAbs fs root) ≠ 1 → lookupV v (toAbs fs root) ≠ 2 →
      isLinkFS fs root = true → resolveFS fs root = .ok target →
      isRelTo (toAbs fs root) target false = true →
      walkRecF fs fn true (fuel + 1) root v =
        some (fn (toAbs fs root) (some .walkCycle),
          [⟨toAbs fs root, toAbs fs root, some .walkCycle⟩],
          setV (setV v (toAbs fs root) 1) (toAbs fs root) 2)) ∧
    walkFS cycFS cbNone true (str "d:\\b") =
      some (none,
        [⟨str "d:\\b", str "d:\\b", none⟩,
         ⟨str "d:\\b\\a", str "d:\\b\\a", some .walkCycle⟩,
         ⟨str "d:\\b\\z", str "d:\\b\\z", none⟩],
        [(str "d:\\b\\z", 2), (str "d:\\b\\a", 2), (str "d:\\b", 2)]) ∧
    walkFS cycFS cbStop true (str "d:\\b") =
      some (some .walkStop,
        [⟨str "d:\\b", str "d:\\b", none⟩,
         ⟨str "d:\\b\\a", str "d:\\b\\a", some .walkCycle⟩],
        [(str "d:\\b\\a", 2), (str "d:\\b", 2)]) := by
  refine ⟨?_, ?_, ?_, by decide, by decide⟩
  · intro fs fn follow root
    have hv : VOK ([] : VMap) := by
      intro k
      simp [lookupV]
    have hle : muFS fs [] ≤ fs.entries.length := by
      simpa [muFS] using
        List.length_filter_le (fun e => decide (lookupV [] e.1 = 0)) fs.entries
    exact walk_total fs fn follow _ root [] hv (by omega)
  · intro fs fn follow fuel root v h
    simp only [walkRecF, walkStep]
    rw [if_pos h]
  · intro fs fn fuel root v target h1 h2 hlink hres hrel
    simp only [walkRecF, walkStep]
    rw [if_neg h1, if_neg h2, if_pos ⟨trivial, hlink⟩, hres]
    simp [hrel]

/-- Witness for the hypothesis-bearing conjuncts of `C1_walk_cycles`:
conjunct (2) applied at an IN_PROGRESS root and conjunct (3) applied at
the ancestor-pointing link of `cycFS`. -/
theorem C1_walk_cycles_witness :
    (walkRecF cycFS cbNone true 1 (str "d:\\b") [(str "d:\\b", 1)] =
      some (none, [⟨str "d:\\b", str "d:\\b", some WErr.walkCycle⟩],
        [(str "d:\\b", 1)])) ∧
    (walkRecF cycFS cbNone true 1 (str "d:\\b\\a") [] =
      some (none, [⟨str "d:\\b\\a", str "d:\\b\\a", some WErr.walkCycle⟩],
        [(str "d:\\b\\a", 2)])) :=
  ⟨C1_walk_cycles.2.1 cycFS cbNone true 0 (str "d:\\b") [(str "d:\\b", 1)] (by decide),
   C1_walk_cycles.2.2.1 cycFS cbNone 0 (str "d:\\b\\a") [] (str "d:\\b")
     (by decide) (by decide) (by decide) rfl (by decide)⟩

/-! ## Claim C10 (the guarded body runs at most once per key) -/

/-- C10: (1) once a key is marked DONE, reaching it again produces no
callback invocation at all — the step returns immediately with an empty
trace, a nil error and an unchanged visited map, in every mode; (2) in a
full walk (from the empty visited map, any mode including
link-following), the callback is invoked with a nil condition at most
once per absolute-path guard key. -/
theorem C10_visit_once :
    (∀ (fs : FS) (fn : Cb) (follow : Bool) (fuel : Nat) (root : Str) (v : VMap),
      lookupV v (toAbs fs root) = 2 →
      walkRecF fs fn follow (fuel + 1) root v = some (none, [], v)) ∧
    (∀ (fs : FS) (fn : Cb) (follow : Bool) (root : Str) (e : Option WErr)
        (tr : List TE) (v' : VMap) (k : Str),
      walkFS fs fn follow root = some (e, tr, v') → nilCount tr k ≤ 1) := by
  constructor
  · intro fs fn follow fuel root v h
    simp only [walkRecF, walkStep]
    rw [if_neg (by omega), if_pos h]
  · intro fs fn follow root e tr v' k h
    simp only [walkFS] at h
    exact ((walk_inv fs fn follow _ root [] e tr v' h).2.2.2.2 k).1

/-- Witness for `C10_visit_once`: the DONE short-cut at a concrete marked
key, and the at-most-once bound on the trace of the concrete cyclic walk
(whose root is both the walk root and the target of the cycling link). -/
theorem C10_visit_once_witness :
    (walkRecF cycFS cbNone true 1 (str "d:\\b") [(str "d:\\b", 2)] =
      some (none, [], [(str "d:\\b", 2)])) ∧
    nilCount
      [⟨str "d:\\b", str "d:\\b", none⟩,
       ⟨str "d:\\b\\a", str "d:\\b\\a", some .walkCycle⟩,
       ⟨str "d:\\b\\z", str "d:\\b\\z", none⟩] (str "d:\\b") ≤ 1 :=
  ⟨C10_visit_once.1 cycFS cbNone true 0 (str "d:\\b") [(str "d:\\b", 2)] (by decide),
   C10_visit_once.2 cycFS cbNone true (str "d:\\b") none _
     [(str "d:\\b\\z", 2), (str "d:\\b\\a", 2), (str "d:\\b", 2)] (str "d:\\b")
     (by decide)⟩

/-! ## Claim C8 (Remove on an absent path) -/

/-- A filesystem containing only a dangling symbolic link `c:\l` (its
target `c:\gone` has no entry). -/
def dangFS : FS := ⟨str "c:\\w", [(str "c:\\l", .link (str "c:\\gone"))]⟩

/-- C8: (1) for every path absent by lstat semantics, `Remove` (in either
mode) succeeds silently and leaves the filesystem unchanged; (2) lstat
existence counts a dangling symbolic link as existing: in `dangFS` the
link `c:\l` exists even though its target `c:\gone` does not. -/
theorem C8_remove_absent :
    (∀ (fs : FS) (p : Str) (recursive : Bool),
      existsL fs p = false → removeFS fs p recursive = (.ok (), fs)) ∧
    (lookupFS dangFS (toAbs dangFS (str "c:\\l")) = some (.link (str "c:\\gone")) ∧
     lookupFS dangFS (toAbs dangFS (str "c:\\gone")) = none ∧
     existsL dangFS (str "c:\\l") = true) := by
  constructor
  · intro fs p recursive h
    simp only [removeFS]
    rw [if_pos (by simp [h])]
  · exact ⟨by decide, by decide, by decide⟩

/-- Witness for `C8_remove_absent` at an absent path of `dangFS`. -/
theorem C8_remove_absent_witness :
    removeFS dangFS (str "c:\\x") true = (.ok (), dangFS) :=
  C8_remove_absent.1 dangFS (str "c:\\x") true (by decide)

/-! ## Claim C9 (ToValidName always yields a valid name) -/

/-- C9: the sanitizer's output is always a valid component name — for
every input string, `ValidateName(ToValidName(name))` returns no error
(and in particular the output is non-empty). -/
theorem C9_sanitizer_valid : ∀ name0 : Str, validateName (toValidName name0) = none := by
  intro name0
  rw [toValidName_stages]
  by_cases hz : name0.length = 0
  · rw [if_pos hz]
    decide
  · rw [if_neg hz]
    have h2chars := tvMapInv_chars (tvTrunc name0)
    have h2len : (tvMapInv (tvTrunc name0)).length ≤ 255 := by
      rw [tvMapInv_len]
      exact tvTrunc_len name0
    have f3chars : ∀ c ∈ tvStrip (tvMapInv (tvTrunc name0)),
        containsChar c InvalidChars = false :=
      fun c hc => h2chars c (tvStrip_subset _ c hc)
    have f3len : (tvStrip (tvMapInv (tvTrunc name0))).length ≤ 255 :=
      le_trans (tvStrip_len _) h2len
    have f4len : (tvMapNL (tvStrip (tvMapInv (tvTrunc name0)))).length ≤ 255 := by
      rw [tvMapNL_len]
      exact f3len
    have f4chars : ∀ c ∈ tvMapNL (tvStrip (tvMapInv (tvTrunc name0))),
        containsChar c InvalidChars = false ∧ c ≠ '\n' ∧ c ≠ '\r' := by
      intro c hc
      obtain ⟨hn, hr, hsp⟩ := tvMapNL_chars _ c hc
      refine ⟨?_, hn, hr⟩
      rcases hsp with h | h
      · rw [h]
        decide
      · exact f3chars c h
    have f4last : ∀ c, (tvMapNL (tvStrip (tvMapInv (tvTrunc name0)))).getLast? = some c →
        isSpaceGo c = false ∧ c ≠ '.' := by
      intro c hc
      rw [tvMapNL, List.getLast?_map] at hc
      cases hl : (tvStrip (tvMapInv (tvTrunc name0))).getLast? with
      | none => rw [hl] at hc; simp at hc
      | some a =>
        rw [hl, Option.map_some'] at hc
        have ha := tvStrip_last _ a hl
        have han : a ≠ '\n' := by
          intro h
          rw [h] at ha
          exact absurd ha.1 (by decide)
        have har : a ≠ '\r' := by
          intro h
          rw [h] at ha
          exact absurd ha.1 (by decide)
        rw [Option.some.injEq] at hc
        rw [if_neg han, if_neg har] at hc
        rw [← hc]
        exact ha
    rcases tvReserve_cases (tvMapNL (tvStrip (tvMapInv (tvTrunc name0)))) with
      ⟨hany, heq⟩ | ⟨hany, heq⟩
    · rw [heq, tvFinal, if_neg (by simp)]
      have hlen4 := reserved_any_length _ hany
      apply validateName_none_of
      · simp
      · rw [List.length_append]
        simp only [List.length_cons, List.length_nil]
        omega
      · rw [List.getLastD_concat]
        decide
      · rw [List.getLastD_concat]
        decide
      · intro c hc
        rcases List.mem_append.mp hc with h | h
        · exact ⟨(f4chars c h).2.1, (f4chars c h).2.2⟩
        · simp only [List.mem_singleton] at h
          rw [h]
          exact ⟨by decide, by decide⟩
      · intro c hc
        rcases List.mem_append.mp hc with h | h
        · exact (f4chars c h).1
        · simp only [List.mem_singleton] at h
          rw [h]
          decide
      · exact append_underscore_not_reserved _
    · rw [heq, tvFinal]
      by_cases hN0 : (tvMapNL (tvStrip (tvMapInv (tvTrunc name0)))).length = 0
      · rw [if_pos hN0]
        decide
      · rw [if_neg hN0]
        have hne : tvMapNL (tvStrip (tvMapInv (tvTrunc name0))) ≠ [] := by
          intro h
          rw [h] at hN0
          exact hN0 rfl
        obtain ⟨c, hc⟩ : ∃ c,
            (tvMapNL (tvStrip (tvMapInv (tvTrunc name0)))).getLast? = some c := by
          cases h : (tvMapNL (tvStrip (tvMapInv (tvTrunc name0)))).getLast? with
          | none => exact absurd (List.getLast?_eq_none.mp h) hne
          | some a => exact ⟨a, rfl⟩
        apply validateName_none_of
        · exact hne
        · exact f4len
        · rw [List.getLastD_eq_getLast?, hc]
          exact (f4last c hc).2
        · rw [List.getLastD_eq_getLast?, hc]
          simpa using (f4last c hc).1
        · intro d hd
          exact ⟨(f4chars d hd).2.1, (f4chars d hd).2.2⟩
        · intro d hd
          exact (f4chars d hd).1
        · intro rsv hmem
          by_contra h
          have h' : equalFold (tvMapNL (tvStrip (tvMapInv (tvTrunc name0)))) rsv = true := by
            simpa using h
          have hT : ReservedNames.any
              (fun r => equalFold (tvMapNL (tvStrip (tvMapInv (tvTrunc name0)))) r) = true :=
            List.any_eq_true.mpr ⟨rsv, hmem, h'⟩
          rw [hany] at hT
          exact Bool.false_ne_true hT


/-! ## Claim C2 (Clean idempotence): counterexample -/

/-- C2 counterexample: `Clean` is not idempotent.  For `s = "c:.."`,
`Clean(s) = "c:."` (the drive-anchor dot-strip removes one of the two
trailing dots) but `Clean(Clean(s)) = "c:"`. -/
theorem C2_counterexample :
    ntClean (str "c:..") = str "c:." ∧ ntClean (str "c:.") = str "c:" ∧
    ntClean (ntClean (str "c:..")) ≠ ntClean (str "c:..") := by decide

/-! ## Claim C3 (RelTo): the code can panic -/

/-- C3: with `p = "c:\"` and `other = "c:\a"` (and the default
`walkUp = true`), `IsRelTo` holds (equal anchors), so `RelTo` runs its
common-prefix loop up to `len(otherParts) = 2`; evaluating `parts[1]` on
the one-element `parts` of `p` is an index-out-of-range panic, so the call
terminates the process instead of returning a value or typed failure. -/
theorem C3_relTo_panics :
    relTo (newPWP [str "c:/"]) (newPWP [str "c:/a"]) true = .oobCrash ∧
    isRelTo (newPWP [str "c:/"]) (newPWP [str "c:/a"]) true = true ∧
    (ntParts (newPWP [str "c:/"])).length = 1 ∧
    (ntParts (newPWP [str "c:/a"])).length = 2 := by decide

/-! ## Claim C4 (Match) -/

/-- C4: the segment-wise glob matcher.  (1) a `**` segment matches zero or
more whole path segments: the matcher succeeds exactly when some number
`k ≤ |path|` of leading segments can be dropped and the rest of the
pattern matches the remainder; (2) an exhausted pattern matches exactly
the exhausted path (the match is true only if the pattern is fully
consumed exactly when the path is fully consumed); (3) a non-`**` segment
never matches an exhausted path; and (4) the concrete case
`Match("c:/**/*.txt", "c:/foo/bar/baz.txt")` is true. -/
theorem C4_match_laws :
    (∀ (fuel : Nat) (ps : List Str) (ss : List Str),
      msF (fuel + 1) (str "**" :: ps) ss = true ↔
        ∃ k, k ≤ ss.length ∧ msF fuel ps (ss.drop k) = true) ∧
    (∀ (fuel : Nat) (ss : List Str), msF (fuel + 1) [] ss = ss.isEmpty) ∧
    (∀ (fuel : Nat) (p : Str) (ps : List Str), p ≠ str "**" →
      msF (fuel + 1) (p :: ps) [] = false) ∧
    ntMatch (str "c:/**/*.txt") (str "c:/foo/bar/baz.txt") = true := by
  refine ⟨?_, ?_, ?_, by decide⟩
  · intro fuel ps ss
    have hstep : msF (fuel + 1) (str "**" :: ps) ss
        = (List.range (ss.length + 1)).any (fun k => msF fuel ps (ss.drop k)) := by
      simp only [msF]
      simp
    rw [hstep, List.any_eq_true]
    simp only [List.mem_range]
    constructor
    · rintro ⟨k, hk, hm⟩
      exact ⟨k, by omega, hm⟩
    · rintro ⟨k, hk, hm⟩
      exact ⟨k, by omega, hm⟩
  · intro fuel ss
    simp [msF]
  · intro fuel p ps hp
    simp only [msF]
    rw [if_neg hp]

/-- Witness for the hypothesis-bearing conjuncts of `C4_match_laws`. -/
theorem C4_match_laws_witness :
    (msF 2 [str "**", str "a"] [str "x", str "a"] = true ↔
      ∃ k, k ≤ 2 ∧ msF 1 [str "a"] ([str "x", str "a"].drop k) = true) ∧
    (str "a" ≠ str "**" ∧ msF 3 [str "a"] [] = false) := by
  refine ⟨?_, by decide, C4_match_laws.2.2.1 2 (str "a") [] (by decide)⟩
  have h := C4_match_laws.1 1 [str "a"] [str "x", str "a"]
  simpa using h

/-! ## Claim C5 (rootless-absolute segment and drive preservation) -/

/-- C5 counterexample: with a drive-relative accumulator (`"c:foo"`, whose
drive letter is non-empty) a rootless-absolute segment does NOT preserve
the drive letter: the segment overwrites the whole accumulator. -/
theorem C5_counterexample :
    newPWP [str "c:foo", str "/bar"] = str "\\bar" ∧
    mergeSeg (str "c:foo") (str "\\bar") = str "\\bar" ∧
    str "\\bar" ≠ str "c:\\bar" := by decide

/-- C5 amended: during construction, when the accumulator is
drive-ABSOLUTE (letter, colon, separator) and the next cleaned segment is
rootless-absolute (a single leading `\`), the segment replaces the path
portion and the accumulator's drive letter is preserved; a drive-relative
accumulator is simply overwritten. -/
theorem C5_amended (path seg : Str)
    (h1 : path.length ≥ 3) (h2 : isAsciiAlpha (path.getD 0 ' '))
    (h3 : path.getD 1 ' ' = ':') (h4 : path.getD 2 ' ' = '\\')
    (h5 : startsWith seg (str "\\")) (h6 : ¬ startsWith seg (str "\\\\") = true) :
    mergeSeg path seg = path.take 2 ++ seg := by
  have hseg0 : seg.getD 0 ' ' = '\\' := by
    rcases seg with _ | ⟨c, cs⟩
    · simp [startsWith, str] at h5
    · have hs : str "\\" = ['\\'] := rfl
      rw [hs] at h5
      simp only [startsWith, Bool.and_true] at h5
      simpa using h5
  have hnotAlpha : ¬ (seg.length ≥ 2 ∧ isAsciiAlpha (seg.getD 0 ' ') ∧ seg.getD 1 ' ' = ':') := by
    rintro ⟨-, ha, -⟩
    rw [hseg0] at ha
    simp [isAsciiAlpha] at ha
  rw [mergeSeg]
  rw [if_neg (by simpa using h6), if_neg (by simpa using hnotAlpha), if_pos h5,
    if_pos ⟨h1, h2, h3, h4⟩]

/-- Witness for `C5_amended` at a concrete input. -/
theorem C5_amended_witness :
    mergeSeg (str "c:\\old") (str "\\bar") = (str "c:\\old").take 2 ++ str "\\bar" :=
  C5_amended (str "c:\\old") (str "\\bar") (by decide) (by decide) (by decide)
    (by decide) (by decide) (by decide)

/-! ## Claim C6 (WithName/WithStem/WithSuffix): counterexample -/

/-- C6 counterexample: for `p = ".."` (which has a name, namely `".."`)
and the valid replacement name `"x"`, `WithName` rebuilds through
`New(p, "..", "x")`, which yields `"..\..\x"`, while
`p.Parent().Join("x")` yields `"x"`. -/
theorem C6_counterexample :
    withName (newPWP [str ".."]) (str "x") = .ok (str "..\\..\\x") ∧
    pJoin (pParent (newPWP [str ".."])) [str "x"] = str "x" ∧
    validateName (str "x") = none ∧
    pName (newPWP [str ".."]) ≠ [] ∧
    str "..\\..\\x" ≠ str "x" := by decide

end GoPathlib
